import Mathlib

/-! # Verifiers of the AIE dialect (`lib/AIEDialect.cpp`)

A shallow embedding of the `verify` functions of the AIE dialect and of the
port-capacity lookups, followed by theorems about them.

Conventions of the embedding

* An operation is kept as its class together with the attributes the
  verifiers read (`Op`).
* A region is the list of its blocks, a block the list of its operations.
* `emitOpError` appends a diagnostic (`Diag`) to the list of emitted
  diagnostics; a verifier yields its returned `LogicalResult` together with the
  diagnostics emitted on the way, in emission order.
* A C `assert` that does not hold stops the verifier: `Outcome.aborted`.
* `int` values are `Int`; the verifiers only compare them.
-/

namespace AIE

/-! ## Data model -/

/-- Modelled from the spec: the enumeration `WireBundle` comes from the generated
`AIEEnums` files, which are not part of the sources at hand; the spec gives it as the
closed set `ME`, `DMA`, `North`, `South`, `East`, `West`. -/
inductive WireBundle
  | ME
  | DMA
  | North
  | South
  | East
  | West
  deriving DecidableEq, Repr

/-- The type `xilinx::AIE::Port`: a pair of a bundle and an index. -/
abbrev Port := WireBundle × Int

/-- The type `mlir::LogicalResult`. -/
inductive LogicalResult
  | success
  | failure
  deriving DecidableEq, Repr

/-- An operation, as far as the verifiers look at it: the class tested by
`isa` / `dyn_cast` and the attributes read.

* `connect`: `ConnectOp` with `(sourceBundle, sourceIndex)` and `(destBundle, destIndex)`.
* `masterset`: `MasterSetOp` with `(destBundle, destIndex)` and, for each operand of
  `amsels()` in order, the `arbiterIndex` of the `AMSelOp` defining it.
* `packetRules`: `PacketRulesOp` with `(sourceBundle, sourceIndex)`.
* `amsel`: `AMSelOp` with `arbiterIndex` and its select value.
* `endOp`: `EndOp`, the end marker of a body.
* `packetSource`, `packetDest`: `PacketSourceOp`, `PacketDestOp`.
* `alloc`: `AllocOp` with the value of `getAttr("id")` (`none` when absent).
* `switchbox`: `SwitchboxOp`.
* `other`: an operation of any other class, with its name. -/
inductive Op
  | connect (source dest : Port)
  | masterset (dest : Port) (amsels : List Int)
  | packetRules (source : Port)
  | amsel (arbiterIndex msel : Int)
  | endOp
  | packetSource
  | packetDest
  | alloc (id : Option String)
  | switchbox
  | other (name : String)
  deriving DecidableEq, Repr

/-- A block: its operations in order. -/
abbrev Block := List Op

/-- A region: its blocks in order. -/
abbrev Region := List Block

/-- The operation a diagnostic is attached to: the operation being verified
(`self`) or the entry at a position of the body walked by the verifier. -/
inductive Loc
  | self
  | entry (i : Nat)
  deriving DecidableEq, Repr

/-- The messages passed to `emitOpError`.

* `sameDestConnect b i`: "targets same destination " b i " as another connect operation"
* `sourceIndexNegative`: "source index cannot be less than zero"
* `sourceIndexTooLarge b n`: "source index for source bundle " b " must be less than " n
* `destIndexNegative`: "dest index cannot be less than zero"
* `destIndexTooLarge b n`: "dest index for dest bundle " b " must be less than " n
* `sameDestMasterset b i`: "targets same destination " b i
  " as another connect or masterset operation"
* `oneArbiter`: "a master port can only be tied to one arbiter"
* `packetSourceMatch b i`: "packet switched source " b i
  " cannot match another connect or masterset operation"
* `notInSwitchbox`: "cannot be contained in a Switchbox op"
* `notInPacketFlow`: "cannot be contained in a PacketFlow op"
* `allocNoId`: "allocOp in MemOp region should have an id attribute" -/
inductive Msg
  | sameDestConnect (b : WireBundle) (i : Int)
  | sourceIndexNegative
  | sourceIndexTooLarge (b : WireBundle) (n : Int)
  | destIndexNegative
  | destIndexTooLarge (b : WireBundle) (n : Int)
  | sameDestMasterset (b : WireBundle) (i : Int)
  | oneArbiter
  | packetSourceMatch (b : WireBundle) (i : Int)
  | notInSwitchbox
  | notInPacketFlow
  | allocNoId
  deriving DecidableEq, Repr

/-- A diagnostic produced by `emitOpError`. -/
structure Diag where
  loc : Loc
  msg : Msg
  deriving DecidableEq, Repr

/-- The assertions of the verifiers.

* `tileOneSwitchbox`: `assert(!found && "Tile can only have one switchbox")`
* `bodyNonEmpty`: `assert(!body.empty())` -/
inductive Assertion
  | tileOneSwitchbox
  | bodyNonEmpty
  deriving DecidableEq, Repr

/-- How a call ends: stopped by an assertion, or returned with a value. -/
inductive Outcome (α : Type)
  | aborted (a : Assertion)
  | returned (r : α)
  deriving DecidableEq, Repr

/-- What a verifier yields when it returns: the `LogicalResult` and the
diagnostics emitted, in emission order. -/
abbrev Result := LogicalResult × List Diag

/-- The type `DenseSet<Port>`, as the list of its members. -/
abbrev DenseSet := List Port

/-- The empty set, as a freshly declared `DenseSet`. -/
def DenseSet.empty : DenseSet := []

/-- The call `set.count(p)`, used as a condition: whether `p` is a member. -/
def DenseSet.count (s : DenseSet) (p : Port) : Bool :=
  decide (p ∈ s)

/-- The call `set.insert(p)`. -/
def DenseSet.insert (s : DenseSet) (p : Port) : DenseSet :=
  if p ∈ s then s else p :: s

/-! ## Capacity lookups -/

/-- The function `SwitchboxOp::getNumSourceConnections`; its `default` case has no
bundle left in the closed set. -/
def SwitchboxOp.getNumSourceConnections : WireBundle → Int
  | .ME => 2
  | .DMA => 2
  | .North => 4
  | .West => 4
  | .South => 6
  | .East => 4

/-- The function `SwitchboxOp::getNumDestConnections`; its `default` case has no
bundle left in the closed set. -/
def SwitchboxOp.getNumDestConnections : WireBundle → Int
  | .ME => 2
  | .DMA => 2
  | .North => 6
  | .West => 4
  | .South => 4
  | .East => 4

/-- The function `TileOp::getNumSourceConnections`. -/
def TileOp.getNumSourceConnections : WireBundle → Int
  | .ME => 2
  | .DMA => 2
  | _ => 0

/-- The function `TileOp::getNumDestConnections`. -/
def TileOp.getNumDestConnections : WireBundle → Int
  | .ME => 2
  | .DMA => 2
  | _ => 0

/-! ## Verifiers -/

/-- A diagnostic emitted under a condition and not returned. -/
def emitIf (c : Bool) (d : Diag) : List Diag :=
  if c then [d] else []

/-- Diagnostics emitted before the rest of a run. -/
def emitThen (ds : List Diag) (r : Result) : Result :=
  (r.1, ds ++ r.2)

/-- Whether the operation is a `SwitchboxOp`. -/
def Op.isSwitchbox : Op → Bool
  | .switchbox => true
  | _ => false

/-- The loop of `verify(TileOp)` over the users of the tile, from a value of
`found`; it returns the last value of `found`. -/
def tileLoop (found : Bool) : List Op → Outcome Bool
  | [] => .returned found
  | user :: rest =>
    if user.isSwitchbox then
      if found then .aborted .tileOneSwitchbox
      else tileLoop true rest
    else tileLoop found rest

/-- The function `verify(TileOp)`, on the users of the result of the tile. -/
def verifyTileOp (users : List Op) : Outcome LogicalResult :=
  match tileLoop false users with
  | .aborted a => .aborted a
  | .returned _ => .returned .success

/-- The loop over `amsels()` in `verify(SwitchboxOp)`, from a value of `arbiter`,
for the master set at position `i`. -/
def arbiterLoop (i : Nat) (arbiter : Int) : List Int → List Diag
  | [] => []
  | a :: rest =>
    emitIf (arbiter != -1 && arbiter != a) ⟨.entry i, .oneArbiter⟩
      ++ arbiterLoop i a rest

/-- The loop of `verify(SwitchboxOp)` over the front block, from the two sets
and the position `i` of the next entry. -/
def switchboxLoop (sourceset destset : DenseSet) (i : Nat) : List Op → Result
  | [] => (.success, [])
  | .connect source dest :: rest =>
    let sourceset := DenseSet.insert sourceset source
    if DenseSet.count destset dest then
      (.failure, [⟨.entry i, .sameDestConnect dest.1 dest.2⟩])
    else
      let destset := DenseSet.insert destset dest
      emitThen
        (emitIf (source.2 < 0) ⟨.entry i, .sourceIndexNegative⟩
          ++ emitIf (source.2 ≥ SwitchboxOp.getNumSourceConnections source.1)
              ⟨.entry i, .sourceIndexTooLarge source.1
                (SwitchboxOp.getNumSourceConnections source.1)⟩
          ++ emitIf (dest.2 < 0) ⟨.entry i, .destIndexNegative⟩
          ++ emitIf (dest.2 ≥ SwitchboxOp.getNumDestConnections dest.1)
              ⟨.entry i, .destIndexTooLarge dest.1
                (SwitchboxOp.getNumDestConnections dest.1)⟩)
        (switchboxLoop sourceset destset (i + 1) rest)
  | .masterset dest amsels :: rest =>
    if DenseSet.count destset dest then
      (.failure, [⟨.entry i, .sameDestMasterset dest.1 dest.2⟩])
    else
      let destset := DenseSet.insert destset dest
      emitThen
        (emitIf (dest.2 < 0) ⟨.entry i, .destIndexNegative⟩
          ++ emitIf (dest.2 ≥ SwitchboxOp.getNumDestConnections dest.1)
              ⟨.entry i, .destIndexTooLarge dest.1
                (SwitchboxOp.getNumDestConnections dest.1)⟩
          ++ arbiterLoop i (-1) amsels)
        (switchboxLoop sourceset destset (i + 1) rest)
  | .packetRules source :: rest =>
    if DenseSet.count sourceset source then
      (.failure, [⟨.entry i, .packetSourceMatch source.1 source.2⟩])
    else
      let sourceset := DenseSet.insert sourceset source
      switchboxLoop sourceset destset (i + 1) rest
  | .amsel _ _ :: rest => switchboxLoop sourceset destset (i + 1) rest
  | .endOp :: rest => switchboxLoop sourceset destset (i + 1) rest
  | _ :: _ => (.failure, [⟨.entry i, .notInSwitchbox⟩])

/-- The function `verify(SwitchboxOp)`, on the region `connections()` of the
switchbox: the assertion on the number of regions holds as the region is there,
the assertion `!body.empty()` is checked, and the loop walks `body.front()`. -/
def verifySwitchboxOp (body : Region) : Outcome Result :=
  match body with
  | [] => .aborted .bodyNonEmpty
  | front :: _ => .returned (switchboxLoop DenseSet.empty DenseSet.empty 0 front)

/-- The loop of `verify(ShimSwitchboxOp)` over the front block, from the set of
used destinations and the position `i` of the next entry. -/
def shimSwitchboxLoop (destset : DenseSet) (i : Nat) : List Op → Result
  | [] => (.success, [])
  | .connect _ dest :: rest =>
    if DenseSet.count destset dest then
      (.failure, [⟨.entry i, .sameDestConnect dest.1 dest.2⟩])
    else
      let destset := DenseSet.insert destset dest
      shimSwitchboxLoop destset (i + 1) rest
  | .endOp :: rest => shimSwitchboxLoop destset (i + 1) rest
  | _ :: _ => (.failure, [⟨.entry i, .notInSwitchbox⟩])

/-- The function `verify(ShimSwitchboxOp)`, on the region `connections()`. -/
def verifyShimSwitchboxOp (body : Region) : Outcome Result :=
  match body with
  | [] => .aborted .bodyNonEmpty
  | front :: _ => .returned (shimSwitchboxLoop DenseSet.empty 0 front)

/-- The loop of `verify(PacketFlowOp)` over the front block, from the position
`i` of the next entry. -/
def packetFlowLoop (i : Nat) : List Op → Result
  | [] => (.success, [])
  | .packetSource :: rest => packetFlowLoop (i + 1) rest
  | .packetDest :: rest => packetFlowLoop (i + 1) rest
  | .endOp :: rest => packetFlowLoop (i + 1) rest
  | _ :: _ => (.failure, [⟨.entry i, .notInPacketFlow⟩])

/-- The function `verify(PacketFlowOp)`, on the region `ports()`. -/
def verifyPacketFlowOp (body : Region) : Outcome Result :=
  match body with
  | [] => .aborted .bodyNonEmpty
  | front :: _ => .returned (packetFlowLoop 0 front)

/-- The range `body.getOps()`: the operations of all blocks of the region, in
order. -/
def Region.getOps (body : Region) : List Op :=
  List.flatten body

/-- The loop of `verify(MemOp)` over `body.getOps()`; the diagnostics are
attached to the `MemOp` itself. -/
def memLoop : List Op → List Diag
  | [] => []
  | .alloc id :: rest => emitIf id.isNone ⟨.self, .allocNoId⟩ ++ memLoop rest
  | _ :: rest => memLoop rest

/-- The function `verify(MemOp)`, on the region `body()`. -/
def verifyMemOp (body : Region) : Outcome Result :=
  match body with
  | [] => .aborted .bodyNonEmpty
  | _ :: _ => .returned (.success, memLoop (Region.getOps body))

/-- The cast `dyn_cast_or_null<LockOp>` of the operation defining a value, `none`
standing for the null pointer: the operation when it is a `LockOp`, null
otherwise. -/
def dynCastOrNullLockOp : Option Op → Option Op
  | some (.other "AIE.lock") => some (.other "AIE.lock")
  | _ => none

/-- The function `verify(UseLockOp)`, on the operation defining `lock()` (`none`
when the value has no defining operation); the test of `lockOp` is commented
out in the source. -/
def verifyUseLockOp (lockDefiningOp : Option Op) : Outcome Result :=
  let _lockOp := dynCastOrNullLockOp lockDefiningOp
  .returned (.success, [])

/-! ## Vocabulary of the statements -/

/-- The message of the diagnostic that `verify(SwitchboxOp)` returns at an entry,
for the two sets as they are when the loop comes to the entry; `none` when the
loop goes on after the entry. -/
def entryFails (sourceset destset : DenseSet) : Op → Option Msg
  | .connect _ dest =>
    if DenseSet.count destset dest then some (.sameDestConnect dest.1 dest.2) else none
  | .masterset dest _ =>
    if DenseSet.count destset dest then some (.sameDestMasterset dest.1 dest.2) else none
  | .packetRules source =>
    if DenseSet.count sourceset source then some (.packetSourceMatch source.1 source.2)
    else none
  | .amsel _ _ => none
  | .endOp => none
  | _ => some .notInSwitchbox

/-- The set `sourceset` after an entry on which the loop goes on. -/
def nextSources (sourceset : DenseSet) : Op → DenseSet
  | .connect source _ => DenseSet.insert sourceset source
  | .packetRules source => DenseSet.insert sourceset source
  | _ => sourceset

/-- The set `destset` after an entry on which the loop goes on. -/
def nextDests (destset : DenseSet) : Op → DenseSet
  | .connect _ dest => DenseSet.insert destset dest
  | .masterset dest _ => DenseSet.insert destset dest
  | _ => destset

/-- The diagnostics that `verify(SwitchboxOp)` emits without returning them at the
entry at position `i`, when the loop goes on after it: the range diagnostics of
a `connect` or a `masterset` and the arbiter diagnostics of a `masterset`. -/
def entryDiags (i : Nat) : Op → List Diag
  | .connect source dest =>
    emitIf (source.2 < 0) ⟨.entry i, .sourceIndexNegative⟩
      ++ emitIf (source.2 ≥ SwitchboxOp.getNumSourceConnections source.1)
          ⟨.entry i, .sourceIndexTooLarge source.1
            (SwitchboxOp.getNumSourceConnections source.1)⟩
      ++ emitIf (dest.2 < 0) ⟨.entry i, .destIndexNegative⟩
      ++ emitIf (dest.2 ≥ SwitchboxOp.getNumDestConnections dest.1)
          ⟨.entry i, .destIndexTooLarge dest.1
            (SwitchboxOp.getNumDestConnections dest.1)⟩
  | .masterset dest amsels =>
    emitIf (dest.2 < 0) ⟨.entry i, .destIndexNegative⟩
      ++ emitIf (dest.2 ≥ SwitchboxOp.getNumDestConnections dest.1)
          ⟨.entry i, .destIndexTooLarge dest.1
            (SwitchboxOp.getNumDestConnections dest.1)⟩
      ++ arbiterLoop i (-1) amsels
  | _ => []

/-- The diagnostics of `entryDiags` for the entries of a body, the first entry
being at position `k`. -/
def bodyDiags (k : Nat) : List Op → List Diag
  | [] => []
  | op :: rest => entryDiags k op ++ bodyDiags (k + 1) rest

/-- Whether the entry is one of the five classes a Switchbox body may hold. -/
def Op.isSwitchboxEntry : Op → Bool
  | .connect _ _ => true
  | .masterset _ _ => true
  | .packetRules _ => true
  | .amsel _ _ => true
  | .endOp => true
  | _ => false

/-- Whether the entry is a `connect` or an `endOp`. -/
def Op.isConnectOrEnd : Op → Bool
  | .connect _ _ => true
  | .endOp => true
  | _ => false

/-- Whether the entry is an `amsel` or an `endOp`. -/
def Op.isAMSelOrEnd : Op → Bool
  | .amsel _ _ => true
  | .endOp => true
  | _ => false

/-- Whether the message is one of the two on the index of a source. -/
def Msg.isSourceRange : Msg → Bool
  | .sourceIndexNegative => true
  | .sourceIndexTooLarge _ _ => true
  | _ => false

/-- Whether the message is one of the two on the index of a destination. -/
def Msg.isDestRange : Msg → Bool
  | .destIndexNegative => true
  | .destIndexTooLarge _ _ => true
  | _ => false

/-- Whether the message is one of the four on the range of an index. -/
def Msg.isRange (m : Msg) : Bool :=
  m.isSourceRange || m.isDestRange

/-- Whether the index of a port is in range for a capacity lookup. -/
def Port.inRange (capacity : WireBundle → Int) (p : Port) : Prop :=
  0 ≤ p.2 ∧ p.2 < capacity p.1

/-- The destination port of an entry that has one: a `connect` or a `masterset`. -/
def Op.destPort : Op → Option Port
  | .connect _ dest => some dest
  | .masterset dest _ => some dest
  | _ => none

/-- The source port of a `connect`. -/
def Op.connectSource : Op → Option Port
  | .connect source _ => some source
  | _ => none

/-- The source port of a `packetRules`. -/
def Op.packetRulesSource : Op → Option Port
  | .packetRules source => some source
  | _ => none

/-- The destination port of a `connect`. -/
def Op.connectDest : Op → Option Port
  | .connect _ dest => some dest
  | _ => none

/-- The entry with the source port of a `connect` replaced by a fixed port; other
entries are left as they are. -/
def Op.eraseConnectSource : Op → Op
  | .connect _ dest => .connect (.ME, 0) dest
  | op => op

/-- Whether the operation is an `AllocOp` without the attribute `id`. -/
def Op.isAllocWithoutId : Op → Bool
  | .alloc none => true
  | _ => false

/-- Two entries with the same destination port. -/
def Op.sameDest (a b : Op) : Prop :=
  ∃ p, a.destPort = some p ∧ b.destPort = some p

/-- A `connect` or a `packetRules`, and a `packetRules` with the same source port. -/
def Op.sourceThenPacket (a b : Op) : Prop :=
  ∃ p, (a.connectSource = some p ∨ a.packetRulesSource = some p) ∧
    b.packetRulesSource = some p

/-- The entry with every port replaced by its image under `f`. -/
def Op.mapPorts (f : Port → Port) : Op → Op
  | .connect source dest => .connect (f source) (f dest)
  | .masterset dest amsels => .masterset (f dest) amsels
  | .packetRules source => .packetRules (f source)
  | op => op

/-- The entry with the `amsels()` of a `masterset` removed; other entries are left
as they are. -/
def Op.eraseAmsels : Op → Op
  | .masterset dest _ => .masterset dest []
  | op => op

/-- Whether the message is the one of the arbiter check. -/
def Msg.isOneArbiter : Msg → Bool
  | .oneArbiter => true
  | _ => false

/-- The number of diagnostics on the entry at position `i` whose message is of
the kind `p`. -/
def diagsAt (i : Nat) (p : Msg → Bool) (ds : List Diag) : Nat :=
  ds.countP (fun d => decide (d.loc = .entry i) && p d.msg)

/-- Whether a pair of arbiter indices, one after the other in `amsels()`, has a
first index that is not `-1` and differs from the second. -/
def arbiterMismatch (p : Int × Int) : Bool :=
  p.1 != -1 && p.1 != p.2

/-- Two calls of a verifier on the same body, one after the other: a verifier
reads the body and writes only sets of its own, declared at each call, so the
second call is on the same body and starts from the same empty sets. -/
def runTwice (verify : Region → Outcome Result) (body : Region) :
    Outcome Result × Outcome Result :=
  (verify body, verify body)

/-- Whether the indices of the ports of an entry are in the ranges of a
Switchbox. -/
def Op.indicesInRange : Op → Prop
  | .connect source dest =>
    Port.inRange SwitchboxOp.getNumSourceConnections source ∧
    Port.inRange SwitchboxOp.getNumDestConnections dest
  | .masterset dest _ => Port.inRange SwitchboxOp.getNumDestConnections dest
  | _ => True

/-- Whether the arbiter indices of a `masterset` are all equal. -/
def Op.oneArbiterIndex : Op → Prop
  | .masterset _ amsels => ∀ a ∈ amsels, ∀ b ∈ amsels, a = b
  | _ => True

/-- The body without its `amsel` and `endOp` entries. -/
def withoutAMSelAndEnd (body : List Op) : List Op :=
  body.filter (fun o => !o.isAMSelOrEnd)

/-- The position that the entry at position `i` of a body has once the `amsel`
and `endOp` entries are removed: the number of other entries before it. -/
def rankIn (body : List Op) (i : Nat) : Nat :=
  (withoutAMSelAndEnd (body.take i)).length

/-- The diagnostic with the position of its entry renamed by `f`. -/
def Diag.relocate (f : Nat → Nat) (d : Diag) : Diag :=
  match d.loc with
  | .entry i => ⟨.entry (f i), d.msg⟩
  | .self => d

/-- The returned `LogicalResult` of a call, when it returned. -/
def Outcome.verdict : Outcome Result → Option LogicalResult
  | .aborted _ => none
  | .returned r => some r.1

/-- The diagnostics of a call that returned. -/
def Outcome.diags : Outcome Result → List Diag
  | .aborted _ => []
  | .returned r => r.2

/-! ## Lemmas on the sets and the loops -/

@[simp]
theorem emitThen_fst (ds : List Diag) (r : Result) : (emitThen ds r).1 = r.1 := rfl

@[simp]
theorem emitThen_snd (ds : List Diag) (r : Result) : (emitThen ds r).2 = ds ++ r.2 := rfl

@[simp]
theorem DenseSet.count_eq_true (s : DenseSet) (p : Port) :
    DenseSet.count s p = true ↔ p ∈ s := by
  simp [DenseSet.count]

@[simp]
theorem DenseSet.mem_insert (s : DenseSet) (p q : Port) :
    q ∈ DenseSet.insert s p ↔ q = p ∨ q ∈ s := by
  unfold DenseSet.insert
  split
  · constructor
    · intro h; exact Or.inr h
    · rintro (h | h)
      · subst h; assumption
      · exact h
  · simp

@[simp]
theorem DenseSet.not_mem_empty (p : Port) : ¬ p ∈ DenseSet.empty := by
  simp [DenseSet.empty]

/-- Once a destination is in `destset`, a later entry with that destination makes
the loop return failure. -/
theorem switchboxLoop_failure_of_dest_mem (body : List Op) :
    ∀ (sourceset destset : DenseSet) (i : Nat) (p : Port), p ∈ destset →
      (∃ op ∈ body, op.destPort = some p) →
      (switchboxLoop sourceset destset i body).1 = .failure := by
  induction body with
  | nil => intro _ _ _ _ _ h; simp at h
  | cons op rest ih =>
    intro ss ds i p hp h
    have hrest : ∀ (ss2 ds2 : DenseSet), (∀ q, q ∈ ds → q ∈ ds2) →
        (∃ o ∈ rest, o.destPort = some p) →
        (switchboxLoop ss2 ds2 (i + 1) rest).1 = .failure :=
      fun ss2 ds2 hsub h2 => ih ss2 ds2 (i + 1) p (hsub p hp) h2
    cases op with
    | connect source dest =>
      simp only [switchboxLoop]
      split
      · rfl
      · rename_i hd
        simp only [emitThen_fst]
        apply hrest _ _ (fun q hq => by simp [hq])
        rcases h with ⟨o, ho, hop⟩
        rcases List.mem_cons.1 ho with rfl | ho
        · simp only [Op.destPort, Option.some.injEq] at hop
          subst hop
          simp [hp] at hd
        · exact ⟨o, ho, hop⟩
    | masterset dest amsels =>
      simp only [switchboxLoop]
      split
      · rfl
      · rename_i hd
        simp only [emitThen_fst]
        apply hrest _ _ (fun q hq => by simp [hq])
        rcases h with ⟨o, ho, hop⟩
        rcases List.mem_cons.1 ho with rfl | ho
        · simp only [Op.destPort, Option.some.injEq] at hop
          subst hop
          simp [hp] at hd
        · exact ⟨o, ho, hop⟩
    | packetRules source =>
      simp only [switchboxLoop]
      split
      · rfl
      · apply hrest _ _ (fun q hq => hq)
        rcases h with ⟨o, ho, hop⟩
        rcases List.mem_cons.1 ho with rfl | ho
        · simp [Op.destPort] at hop
        · exact ⟨o, ho, hop⟩
    | amsel a m =>
      simp only [switchboxLoop]
      apply hrest _ _ (fun q hq => hq)
      rcases h with ⟨o, ho, hop⟩
      rcases List.mem_cons.1 ho with rfl | ho
      · simp [Op.destPort] at hop
      · exact ⟨o, ho, hop⟩
    | endOp =>
      simp only [switchboxLoop]
      apply hrest _ _ (fun q hq => hq)
      rcases h with ⟨o, ho, hop⟩
      rcases List.mem_cons.1 ho with rfl | ho
      · simp [Op.destPort] at hop
      · exact ⟨o, ho, hop⟩
    | packetSource => simp [switchboxLoop]
    | packetDest => simp [switchboxLoop]
    | alloc id => simp [switchboxLoop]
    | switchbox => simp [switchboxLoop]
    | other name => simp [switchboxLoop]

/-- One entry of the loop: either the loop returns failure, or it goes on with
sets that have grown by the ports of the entry. -/
theorem switchboxLoop_cons_cases (op : Op) (rest : List Op)
    (sourceset destset : DenseSet) (i : Nat) :
    (switchboxLoop sourceset destset i (op :: rest)).1 = .failure ∨
    ∃ (ss ds : DenseSet),
      (∀ q, q ∈ sourceset → q ∈ ss) ∧ (∀ q, q ∈ destset → q ∈ ds) ∧
      (∀ p, op.destPort = some p → p ∈ ds) ∧
      (∀ p, op.connectSource = some p → p ∈ ss) ∧
      (∀ p, op.packetRulesSource = some p → p ∈ ss) ∧
      (switchboxLoop sourceset destset i (op :: rest)).1
        = (switchboxLoop ss ds (i + 1) rest).1 := by
  cases op with
  | connect source dest =>
    by_cases hd : dest ∈ destset
    · left; simp [switchboxLoop, hd]
    · right
      refine ⟨DenseSet.insert sourceset source, DenseSet.insert destset dest, ?_⟩
      simp [switchboxLoop, hd, Op.destPort, Op.connectSource, Op.packetRulesSource]
      exact ⟨fun a b h => Or.inr h, fun a b h => Or.inr h⟩
  | masterset dest amsels =>
    by_cases hd : dest ∈ destset
    · left; simp [switchboxLoop, hd]
    · right
      refine ⟨sourceset, DenseSet.insert destset dest, ?_⟩
      simp [switchboxLoop, hd, Op.destPort, Op.connectSource, Op.packetRulesSource]
      exact fun a b h => Or.inr h
  | packetRules source =>
    by_cases hs : source ∈ sourceset
    · left; simp [switchboxLoop, hs]
    · right
      refine ⟨DenseSet.insert sourceset source, destset, ?_⟩
      simp [switchboxLoop, hs, Op.destPort, Op.connectSource, Op.packetRulesSource]
      exact fun a b h => Or.inr h
  | amsel a m =>
    right
    exact ⟨sourceset, destset, by
      simp [switchboxLoop, Op.destPort, Op.connectSource, Op.packetRulesSource]⟩
  | endOp =>
    right
    exact ⟨sourceset, destset, by
      simp [switchboxLoop, Op.destPort, Op.connectSource, Op.packetRulesSource]⟩
  | packetSource => left; simp [switchboxLoop]
  | packetDest => left; simp [switchboxLoop]
  | alloc id => left; simp [switchboxLoop]
  | switchbox => left; simp [switchboxLoop]
  | other name => left; simp [switchboxLoop]

/-- Once a source is in `sourceset`, a later `packetRules` with that source makes
the loop return failure. -/
theorem switchboxLoop_failure_of_source_mem (body : List Op) :
    ∀ (sourceset destset : DenseSet) (i : Nat) (p : Port), p ∈ sourceset →
      (∃ op ∈ body, op.packetRulesSource = some p) →
      (switchboxLoop sourceset destset i body).1 = .failure := by
  induction body with
  | nil => intro _ _ _ _ _ h; simp at h
  | cons op rest ih =>
    intro ss ds i p hp h
    rcases h with ⟨o, ho, hop⟩
    rcases List.mem_cons.1 ho with rfl | ho
    · cases o <;> simp [Op.packetRulesSource] at hop
      subst hop
      simp [switchboxLoop, hp]
    · rcases switchboxLoop_cons_cases op rest ss ds i with hf | ⟨ss2, ds2, hss, _, _, _, _, heq⟩
      · exact hf
      · rw [heq]
        exact ih ss2 ds2 (i + 1) p (hss p hp) ⟨o, ho, hop⟩

/-- Two entries with the same destination port make the loop return failure. -/
theorem switchboxLoop_failure_of_dup_dest (body : List Op) :
    ∀ (sourceset destset : DenseSet) (k i j : Nat) (a b : Op) (p : Port), i < j →
      body[i]? = some a → body[j]? = some b →
      a.destPort = some p → b.destPort = some p →
      (switchboxLoop sourceset destset k body).1 = .failure := by
  induction body with
  | nil => intro _ _ _ _ _ _ _ _ _ h; simp at h
  | cons op rest ih =>
    intro ss ds k i j a b p hij ha hb hpa hpb
    obtain ⟨j, rfl⟩ : ∃ j2, j = j2 + 1 := ⟨j - 1, by omega⟩
    simp only [List.getElem?_cons_succ] at hb
    rcases switchboxLoop_cons_cases op rest ss ds k with hf | ⟨ss2, ds2, _, _, hdp, _, _, heq⟩
    · exact hf
    · rw [heq]
      cases i with
      | zero =>
        simp only [List.getElem?_cons_zero, Option.some.injEq] at ha
        subst ha
        exact switchboxLoop_failure_of_dest_mem rest ss2 ds2 (k + 1) p (hdp p hpa)
          ⟨b, List.getElem?_mem hb, hpb⟩
      | succ i =>
        simp only [List.getElem?_cons_succ] at ha
        exact ih ss2 ds2 (k + 1) i j a b p (by omega) ha hb hpa hpb

/-- A `connect` followed later by a `packetRules` with the same source port makes
the loop return failure. -/
theorem switchboxLoop_failure_of_connect_then_packet (body : List Op) :
    ∀ (sourceset destset : DenseSet) (k i j : Nat) (a b : Op) (p : Port), i < j →
      body[i]? = some a → body[j]? = some b →
      a.connectSource = some p → b.packetRulesSource = some p →
      (switchboxLoop sourceset destset k body).1 = .failure := by
  induction body with
  | nil => intro _ _ _ _ _ _ _ _ _ h; simp at h
  | cons op rest ih =>
    intro ss ds k i j a b p hij ha hb hpa hpb
    obtain ⟨j, rfl⟩ : ∃ j2, j = j2 + 1 := ⟨j - 1, by omega⟩
    simp only [List.getElem?_cons_succ] at hb
    rcases switchboxLoop_cons_cases op rest ss ds k with hf | ⟨ss2, ds2, _, _, _, hsp, _, heq⟩
    · exact hf
    · rw [heq]
      cases i with
      | zero =>
        simp only [List.getElem?_cons_zero, Option.some.injEq] at ha
        subst ha
        exact switchboxLoop_failure_of_source_mem rest ss2 ds2 (k + 1) p (hsp p hpa)
          ⟨b, List.getElem?_mem hb, hpb⟩
      | succ i =>
        simp only [List.getElem?_cons_succ] at ha
        exact ih ss2 ds2 (k + 1) i j a b p (by omega) ha hb hpa hpb

/-- The loop of `verify(TileOp)` once a switchbox has been found: it stops on the
next switchbox, if there is one. -/
theorem tileLoop_true (users : List Op) :
    tileLoop true users
      = if users.countP Op.isSwitchbox = 0 then .returned true
        else .aborted .tileOneSwitchbox := by
  induction users with
  | nil => simp [tileLoop]
  | cons u rest ih =>
    by_cases hu : u.isSwitchbox = true
    · simp [tileLoop, hu]
    · simp [tileLoop, hu, ih]

/-- The loop of `verify(TileOp)` from its start, by the number of switchboxes
among the users. -/
theorem tileLoop_false (users : List Op) :
    tileLoop false users
      = if users.countP Op.isSwitchbox = 0 then .returned false
        else if users.countP Op.isSwitchbox = 1 then .returned true
        else .aborted .tileOneSwitchbox := by
  induction users with
  | nil => simp [tileLoop]
  | cons u rest ih =>
    by_cases hu : u.isSwitchbox = true
    · simp [tileLoop, hu, tileLoop_true]
    · simp [tileLoop, hu, ih]

/-- The function `verify(TileOp)`, by the number of switchboxes among the users. -/
theorem verifyTileOp_eq (users : List Op) :
    verifyTileOp users
      = if users.countP Op.isSwitchbox ≤ 1 then .returned .success
        else .aborted .tileOneSwitchbox := by
  unfold verifyTileOp
  rw [tileLoop_false]
  by_cases h0 : users.countP Op.isSwitchbox = 0
  · simp [h0]
  · by_cases h1 : users.countP Op.isSwitchbox = 1
    · simp [h1]
    · have h2 : ¬ users.countP Op.isSwitchbox ≤ 1 := by omega
      simp [h0, h1, h2]

/-! ## Switchbox: destinations, ranges, arbiters, packet rules -/

/-- C1: a Switchbox body in which two entries, each a Connection or a MasterSet,
have the same destination port makes the Switchbox verifier return failure; and
on Connection (DMA,0) to (North,0) followed by Connection (DMA,1) to (North,0) it
returns failure with the one diagnostic "targets same destination North 0 as
another connect operation" on the second entry. -/
theorem C1_duplicate_destination_returns_failure :
    (∀ (front : Block) (rest : List Block) (i j : Nat) (a b : Op) (p : Port),
      i < j → front[i]? = some a → front[j]? = some b →
      a.destPort = some p → b.destPort = some p →
      (verifySwitchboxOp (front :: rest)).verdict = some .failure) ∧
    verifySwitchboxOp [[.connect (.DMA, 0) (.North, 0), .connect (.DMA, 1) (.North, 0)]]
      = .returned (.failure, [⟨.entry 1, .sameDestConnect .North 0⟩]) := by
  refine ⟨?_, by decide⟩
  intro front rest i j a b p hij ha hb hpa hpb
  simp only [verifySwitchboxOp, Outcome.verdict]
  exact congrArg some
    (switchboxLoop_failure_of_dup_dest front _ _ 0 i j a b p hij ha hb hpa hpb)

/-- C1, at a body with a MasterSet and a later Connection to the same port. -/
theorem C1_duplicate_destination_witness :
    (verifySwitchboxOp [[.masterset (.East, 3) [], .amsel 0 0,
        .connect (.ME, 1) (.East, 3), .endOp]]).verdict = some .failure :=
  C1_duplicate_destination_returns_failure.1
    [.masterset (.East, 3) [], .amsel 0 0, .connect (.ME, 1) (.East, 3), .endOp] []
    0 2 (.masterset (.East, 3) []) (.connect (.ME, 1) (.East, 3)) (.East, 3)
    (by decide) rfl rfl rfl rfl

/-- C2: on the body with the single entry Connection (South,7) to (ME,0), whose
source index 7 is not below the source capacity 6 of South, the Switchbox
verifier emits the range diagnostic and returns success, not failure; the same
holds with the end marker after the entry, and with a negative source index, an
out-of-range destination index of a Connection and of a MasterSet. -/
theorem C2_index_out_of_range_returns_success :
    verifySwitchboxOp [[.connect (.South, 7) (.ME, 0)]]
      = .returned (.success, [⟨.entry 0, .sourceIndexTooLarge .South 6⟩]) ∧
    verifySwitchboxOp [[.connect (.South, 7) (.ME, 0), .endOp]]
      = .returned (.success, [⟨.entry 0, .sourceIndexTooLarge .South 6⟩]) ∧
    verifySwitchboxOp [[.connect (.South, -1) (.ME, 0), .endOp]]
      = .returned (.success, [⟨.entry 0, .sourceIndexNegative⟩]) ∧
    verifySwitchboxOp [[.connect (.South, 0) (.ME, 2), .endOp]]
      = .returned (.success, [⟨.entry 0, .destIndexTooLarge .ME 2⟩]) ∧
    verifySwitchboxOp [[.masterset (.West, 4) [], .endOp]]
      = .returned (.success, [⟨.entry 0, .destIndexTooLarge .West 4⟩]) := by
  decide

/-- C3: on a body whose MasterSet is tied to two AMSel entries with the arbiter
indices 0 and 1, the Switchbox verifier emits "a master port can only be tied to
one arbiter" and returns success, not failure. -/
theorem C3_arbiter_mismatch_returns_success :
    verifySwitchboxOp [[.amsel 0 0, .amsel 1 0, .masterset (.North, 0) [0, 1], .endOp]]
      = .returned (.success, [⟨.entry 2, .oneArbiter⟩]) := by
  decide

/-- C4: a Switchbox body in which a PacketRule has the source port of a
Connection that comes earlier in the body makes the Switchbox verifier return
failure. -/
theorem C4_packet_rule_after_connect_returns_failure
    (front : Block) (rest : List Block) (i j : Nat) (a b : Op) (p : Port)
    (hij : i < j) (ha : front[i]? = some a) (hb : front[j]? = some b)
    (hpa : a.connectSource = some p) (hpb : b.packetRulesSource = some p) :
    (verifySwitchboxOp (front :: rest)).verdict = some .failure := by
  simp only [verifySwitchboxOp, Outcome.verdict]
  exact congrArg some
    (switchboxLoop_failure_of_connect_then_packet front _ _ 0 i j a b p hij ha hb hpa hpb)

/-- C4, at a body with a Connection from (DMA,0) and a later PacketRule on (DMA,0). -/
theorem C4_packet_rule_after_connect_witness :
    (verifySwitchboxOp [[.connect (.DMA, 0) (.North, 0), .amsel 0 0,
        .packetRules (.DMA, 0), .endOp]]).verdict = some .failure :=
  C4_packet_rule_after_connect_returns_failure
    [.connect (.DMA, 0) (.North, 0), .amsel 0 0, .packetRules (.DMA, 0), .endOp] []
    0 2 (.connect (.DMA, 0) (.North, 0)) (.packetRules (.DMA, 0)) (.DMA, 0)
    (by decide) rfl rfl rfl rfl

/-- C5: on a body with a PacketRule on (DMA,0) followed by a Connection from
(DMA,0), the Switchbox verifier returns success with no diagnostic, whereas the
same two entries in the other order make it return failure. -/
theorem C5_packet_rule_before_connect_returns_success :
    verifySwitchboxOp [[.packetRules (.DMA, 0), .connect (.DMA, 0) (.North, 0), .endOp]]
      = .returned (.success, []) ∧
    verifySwitchboxOp [[.connect (.DMA, 0) (.North, 0), .packetRules (.DMA, 0), .endOp]]
      = .returned (.failure, [⟨.entry 1, .packetSourceMatch .DMA 0⟩]) := by
  decide

/-! ## Capacities -/

/-- C6: the capacity lookups have the values of the fabric: Switchbox
destinations 6 for North, 4 for East, West and South, 2 for ME and DMA; Switchbox
sources 4 for North, 6 for South, 4 for East and West, 2 for ME and DMA; Tile
sources and destinations 2 for ME and DMA and 0 for every other bundle; and every
lookup is non-negative on every bundle. -/
theorem C6_capacity_tables :
    (SwitchboxOp.getNumDestConnections .North = 6 ∧
      SwitchboxOp.getNumDestConnections .East = 4 ∧
      SwitchboxOp.getNumDestConnections .West = 4 ∧
      SwitchboxOp.getNumDestConnections .South = 4 ∧
      SwitchboxOp.getNumDestConnections .ME = 2 ∧
      SwitchboxOp.getNumDestConnections .DMA = 2) ∧
    (SwitchboxOp.getNumSourceConnections .North = 4 ∧
      SwitchboxOp.getNumSourceConnections .South = 6 ∧
      SwitchboxOp.getNumSourceConnections .East = 4 ∧
      SwitchboxOp.getNumSourceConnections .West = 4 ∧
      SwitchboxOp.getNumSourceConnections .ME = 2 ∧
      SwitchboxOp.getNumSourceConnections .DMA = 2) ∧
    (∀ b : WireBundle,
      TileOp.getNumSourceConnections b = (if b = .ME ∨ b = .DMA then 2 else 0) ∧
      TileOp.getNumDestConnections b = (if b = .ME ∨ b = .DMA then 2 else 0)) ∧
    (∀ b : WireBundle,
      0 ≤ SwitchboxOp.getNumSourceConnections b ∧
      0 ≤ SwitchboxOp.getNumDestConnections b ∧
      0 ≤ TileOp.getNumSourceConnections b ∧
      0 ≤ TileOp.getNumDestConnections b) := by
  refine ⟨by decide, by decide, ?_, ?_⟩
  · intro b; cases b <;> decide
  · intro b; cases b <;> decide

/-! ## Tile -/

/-- C7: a Tile with two or more Switchbox operations among its users makes the
Tile verifier stop on the assertion "Tile can only have one switchbox", and the
assertion trips at the second Switchbox user: the users before it pass, and no
user after it is looked at; a Tile with at most one Switchbox among its users,
whatever the other users, makes the verifier return success. -/
theorem C7_tile_one_switchbox :
    (∀ users : List Op, 2 ≤ users.countP Op.isSwitchbox →
      verifyTileOp users = .aborted .tileOneSwitchbox) ∧
    (∀ (pre post : List Op) (u : Op), pre.countP Op.isSwitchbox = 1 →
      u.isSwitchbox = true →
      verifyTileOp pre = .returned .success ∧
      verifyTileOp (pre ++ u :: post) = .aborted .tileOneSwitchbox) ∧
    (∀ users : List Op, users.countP Op.isSwitchbox ≤ 1 →
      verifyTileOp users = .returned .success) := by
  refine ⟨?_, ?_, ?_⟩
  · intro users h
    have h2 : ¬ users.countP Op.isSwitchbox ≤ 1 := by omega
    simp [verifyTileOp_eq, h2]
  · intro pre post u hpre hu
    constructor
    · simp [verifyTileOp_eq, hpre]
    · simp [verifyTileOp_eq, List.countP_append, List.countP_cons, hpre, hu]
  · intro users h
    simp [verifyTileOp_eq, h]

/-- C7, at a tile used by a core-like operation and two switchboxes, at the
same tile up to its second switchbox, and at a tile with one switchbox. -/
theorem C7_tile_one_switchbox_witness :
    verifyTileOp [.other "AIE.core", .switchbox, .other "AIE.mem", .switchbox]
      = .aborted .tileOneSwitchbox ∧
    (verifyTileOp [.other "AIE.core", .switchbox, .other "AIE.mem"] = .returned .success ∧
      verifyTileOp ([.other "AIE.core", .switchbox, .other "AIE.mem"]
        ++ .switchbox :: [.other "AIE.lock"]) = .aborted .tileOneSwitchbox) ∧
    verifyTileOp [.other "AIE.core", .switchbox, .other "AIE.mem"] = .returned .success :=
  ⟨C7_tile_one_switchbox.1 _ (by decide),
    C7_tile_one_switchbox.2.1 _ _ .switchbox (by decide) rfl,
    C7_tile_one_switchbox.2.2 _ (by decide)⟩

/-! ## ShimSwitchbox -/

/-- The loop of `verify(ShimSwitchboxOp)` returns success or failure. -/
theorem shimSwitchboxLoop_failure_iff (body : List Op) (destset : DenseSet) (i : Nat) :
    (shimSwitchboxLoop destset i body).1 = .failure
      ↔ ¬ (shimSwitchboxLoop destset i body).1 = .success := by
  cases (shimSwitchboxLoop destset i body).1 <;> simp

/-- The loop of `verify(ShimSwitchboxOp)` returns success exactly on bodies of
`connect` and `endOp` entries whose destinations are pairwise distinct and not
yet in `destset`. -/
theorem shimSwitchboxLoop_success_iff (body : List Op) :
    ∀ (destset : DenseSet) (i : Nat),
      (shimSwitchboxLoop destset i body).1 = .success ↔
        (∀ op ∈ body, (∃ s d, op = .connect s d) ∨ op = .endOp) ∧
        (body.filterMap Op.connectDest).Nodup ∧
        (∀ p ∈ body.filterMap Op.connectDest, p ∉ destset) := by
  induction body with
  | nil => intro ds i; simp [shimSwitchboxLoop]
  | cons op rest ih =>
    intro ds i
    cases op with
    | connect source dest =>
      by_cases hd : dest ∈ ds
      · simp [shimSwitchboxLoop, hd, Op.connectDest]
      · have hloop : shimSwitchboxLoop ds i (.connect source dest :: rest)
            = shimSwitchboxLoop (DenseSet.insert ds dest) (i + 1) rest := by
          simp [shimSwitchboxLoop, hd]
        rw [hloop, ih]
        simp only [DenseSet.mem_insert, List.filterMap_cons, Op.connectDest,
          List.nodup_cons, List.mem_cons, forall_eq_or_imp]
        constructor
        · rintro ⟨h1, h2, h3⟩
          refine ⟨⟨Or.inl ⟨source, dest, rfl⟩, h1⟩, ⟨?_, h2⟩, hd, ?_⟩
          · intro hmem; exact (h3 dest hmem) (Or.inl rfl)
          · intro p hp hpd; exact (h3 p hp) (Or.inr hpd)
        · rintro ⟨⟨_, h1⟩, ⟨hn, h2⟩, _, h3⟩
          refine ⟨h1, h2, ?_⟩
          intro p hp hor
          rcases hor with rfl | hpd
          · exact hn hp
          · exact h3 p hp hpd
    | endOp => simp [shimSwitchboxLoop, ih, Op.connectDest]
    | masterset dest amsels => simp [shimSwitchboxLoop]
    | packetRules source => simp [shimSwitchboxLoop]
    | amsel a m => simp [shimSwitchboxLoop]
    | packetSource => simp [shimSwitchboxLoop]
    | packetDest => simp [shimSwitchboxLoop]
    | alloc id => simp [shimSwitchboxLoop]
    | switchbox => simp [shimSwitchboxLoop]
    | other name => simp [shimSwitchboxLoop]

/-- The loop of `verify(ShimSwitchboxOp)` does not read the source ports. -/
theorem shimSwitchboxLoop_eraseConnectSource (body : List Op) :
    ∀ (destset : DenseSet) (i : Nat),
      shimSwitchboxLoop destset i (body.map Op.eraseConnectSource)
        = shimSwitchboxLoop destset i body := by
  induction body with
  | nil => intro ds i; rfl
  | cons op rest ih =>
    intro ds i
    cases op <;> simp [shimSwitchboxLoop, Op.eraseConnectSource, ih]

/-- C8: the ShimSwitchbox verifier returns success if and only if every entry of
the body is a Connection or an end marker and the destination ports of the
Connections are pairwise distinct, and returns failure otherwise; the outcome,
diagnostics included, is the same for two bodies that differ only in the source
ports of their Connections, and indices out of the Switchbox ranges do not make it
fail. -/
theorem C8_shim_switchbox_success_iff :
    (∀ (front : Block) (rest : List Block),
      ((verifyShimSwitchboxOp (front :: rest)).verdict = some .success ↔
        (∀ op ∈ front, (∃ s d, op = .connect s d) ∨ op = .endOp) ∧
        (front.filterMap Op.connectDest).Nodup) ∧
      ((verifyShimSwitchboxOp (front :: rest)).verdict = some .failure ↔
        ¬ ((∀ op ∈ front, (∃ s d, op = .connect s d) ∨ op = .endOp) ∧
          (front.filterMap Op.connectDest).Nodup))) ∧
    (∀ (front front2 : Block) (rest rest2 : List Block),
      front.map Op.eraseConnectSource = front2.map Op.eraseConnectSource →
      verifyShimSwitchboxOp (front :: rest) = verifyShimSwitchboxOp (front2 :: rest2)) ∧
    verifyShimSwitchboxOp [[.connect (.South, 7) (.ME, 99), .connect (.South, -1) (.ME, -5),
        .endOp]] = .returned (.success, []) := by
  refine ⟨?_, ?_, by decide⟩
  · intro front rest
    have hs := shimSwitchboxLoop_success_iff front DenseSet.empty 0
    have hf := shimSwitchboxLoop_failure_iff front DenseSet.empty 0
    simp only [DenseSet.not_mem_empty, not_false_eq_true, implies_true, and_true] at hs
    simp only [verifySwitchboxOp, verifyShimSwitchboxOp, Outcome.verdict, Option.some.injEq]
    exact ⟨hs, by rw [hf, hs]⟩
  · intro front front2 rest rest2 h
    simp only [verifyShimSwitchboxOp]
    rw [← shimSwitchboxLoop_eraseConnectSource front, h,
      shimSwitchboxLoop_eraseConnectSource front2]

/-- C8, at a body with two Connections to distinct ports, and at two bodies that
differ in the source of a Connection. -/
theorem C8_shim_switchbox_witness :
    (verifyShimSwitchboxOp [[.connect (.South, 0) (.North, 0),
        .connect (.South, 0) (.North, 1), .endOp]]).verdict = some .success ∧
    verifyShimSwitchboxOp [[.connect (.South, 0) (.North, 0), .switchbox]]
      = verifyShimSwitchboxOp [[.connect (.DMA, 9) (.North, 0), .switchbox], [.endOp]] :=
  ⟨((C8_shim_switchbox_success_iff.1
      [.connect (.South, 0) (.North, 0), .connect (.South, 0) (.North, 1), .endOp] []).1).2
      (by simp [Op.connectDest]),
    C8_shim_switchbox_success_iff.2.1 _ _ _ _ (by decide)⟩

/-! ## PacketFlow -/

/-- The loop of `verify(PacketFlowOp)` returns success exactly on bodies of
`packetSource`, `packetDest` and `endOp` entries. -/
theorem packetFlowLoop_success_iff (body : List Op) :
    ∀ i : Nat, (packetFlowLoop i body).1 = .success ↔
      ∀ op ∈ body, op = .packetSource ∨ op = .packetDest ∨ op = .endOp := by
  induction body with
  | nil => intro i; simp [packetFlowLoop]
  | cons op rest ih =>
    intro i
    cases op <;> simp [packetFlowLoop, ih]

/-- The loop of `verify(PacketFlowOp)` stops at the first entry that is none of
`packetSource`, `packetDest`, `endOp`, with one diagnostic on that entry. -/
theorem packetFlowLoop_first_other (body : List Op) :
    ∀ (i k : Nat) (op : Op), body[k]? = some op →
      ¬ (op = .packetSource ∨ op = .packetDest ∨ op = .endOp) →
      (∀ m o, m < k → body[m]? = some o →
        o = .packetSource ∨ o = .packetDest ∨ o = .endOp) →
      packetFlowLoop i body = (.failure, [⟨.entry (i + k), .notInPacketFlow⟩]) := by
  induction body with
  | nil => intro _ _ _ h; simp at h
  | cons hd rest ih =>
    intro i k op hk hop hbefore
    cases k with
    | zero =>
      simp only [List.getElem?_cons_zero, Option.some.injEq] at hk
      subst hk
      cases hd <;> simp [packetFlowLoop] at hop ⊢
    | succ k =>
      simp only [List.getElem?_cons_succ] at hk
      have hhd := hbefore 0 hd (by omega) (by simp)
      have hrest := ih (i + 1) k op hk hop
        (fun m o hm ho => hbefore (m + 1) o (by omega) (by simpa using ho))
      have hidx : i + 1 + k = i + (k + 1) := by omega
      rw [hidx] at hrest
      rcases hhd with rfl | rfl | rfl <;> simpa [packetFlowLoop] using hrest

/-- C9: the PacketFlow verifier returns success if and only if every entry of the
body is a PacketSource, a PacketDest or an end marker, whatever their order and
number, and returns failure otherwise; when the body has another entry, the one
diagnostic emitted is on the first such entry in body order. -/
theorem C9_packet_flow_success_iff :
    (∀ (front : Block) (rest : List Block),
      ((verifyPacketFlowOp (front :: rest)).verdict = some .success ↔
        ∀ op ∈ front, op = .packetSource ∨ op = .packetDest ∨ op = .endOp) ∧
      ((verifyPacketFlowOp (front :: rest)).verdict = some .failure ↔
        ∃ op ∈ front, ¬ (op = .packetSource ∨ op = .packetDest ∨ op = .endOp))) ∧
    (∀ (front : Block) (rest : List Block) (k : Nat) (op : Op), front[k]? = some op →
      ¬ (op = .packetSource ∨ op = .packetDest ∨ op = .endOp) →
      (∀ m o, m < k → front[m]? = some o →
        o = .packetSource ∨ o = .packetDest ∨ o = .endOp) →
      verifyPacketFlowOp (front :: rest)
        = .returned (.failure, [⟨.entry k, .notInPacketFlow⟩])) := by
  refine ⟨?_, ?_⟩
  · intro front rest
    have hs := packetFlowLoop_success_iff front 0
    simp only [verifyPacketFlowOp, Outcome.verdict, Option.some.injEq]
    refine ⟨hs, ?_⟩
    have hf : (packetFlowLoop 0 front).1 = .failure
        ↔ ¬ (packetFlowLoop 0 front).1 = .success := by
      cases (packetFlowLoop 0 front).1 <;> simp
    rw [hf, hs]
    push_neg
    rfl
  · intro front rest k op hk hop hbefore
    have h := packetFlowLoop_first_other front 0 k op hk hop hbefore
    simp only [Nat.zero_add] at h
    simp only [verifyPacketFlowOp, h]

/-- C9, at a body of two sources, a destination and the end marker, and at a
body whose entry 2 is the first that is not allowed. -/
theorem C9_packet_flow_witness :
    (verifyPacketFlowOp [[.packetSource, .packetDest, .packetSource, .endOp]]).verdict
      = some .success ∧
    verifyPacketFlowOp [[.packetDest, .packetSource, .connect (.DMA, 0) (.North, 0),
        .switchbox, .endOp]]
      = .returned (.failure, [⟨.entry 2, .notInPacketFlow⟩]) :=
  ⟨((C9_packet_flow_success_iff.1 [.packetSource, .packetDest, .packetSource, .endOp] []).1).2
      (by decide),
    C9_packet_flow_success_iff.2
      [.packetDest, .packetSource, .connect (.DMA, 0) (.North, 0), .switchbox, .endOp] []
      2 (.connect (.DMA, 0) (.North, 0)) rfl (by decide) (by
        intro m o hm ho
        have hm2 : m = 0 ∨ m = 1 := by omega
        rcases hm2 with rfl | rfl <;> simp at ho <;> subst ho <;> decide)⟩

/-! ## Mem -/

/-- The loop of `verify(MemOp)` emits one diagnostic for each `AllocOp` without
the attribute `id`. -/
theorem memLoop_eq_replicate (ops : List Op) :
    memLoop ops
      = List.replicate (ops.countP Op.isAllocWithoutId) ⟨.self, .allocNoId⟩ := by
  induction ops with
  | nil => rfl
  | cons op rest ih =>
    cases op with
    | alloc id =>
      cases id <;>
        simp [memLoop, emitIf, ih, Op.isAllocWithoutId, List.replicate_succ]
    | _ => simp [memLoop, ih, Op.isAllocWithoutId]

/-- C10: the Mem verifier emits the diagnostic "allocOp in MemOp region should
have an id attribute" once for each Allocation of the body that has no attribute
id, and nothing else, and returns success; when every Allocation of the body has
the attribute, it returns success with no diagnostic; a Mem with one Allocation
without id gets the one diagnostic, and the same Mem with the attribute gets none. -/
theorem C10_mem_alloc_id :
    (∀ (front : Block) (rest : List Block),
      verifyMemOp (front :: rest)
        = .returned (.success,
            List.replicate ((Region.getOps (front :: rest)).countP Op.isAllocWithoutId)
              ⟨.self, .allocNoId⟩) ∧
      ((∀ op ∈ Region.getOps (front :: rest), op ≠ .alloc none) →
        verifyMemOp (front :: rest) = .returned (.success, []))) ∧
    verifyMemOp [[.alloc none, .endOp]] = .returned (.success, [⟨.self, .allocNoId⟩]) ∧
    verifyMemOp [[.alloc (some "0"), .endOp]] = .returned (.success, []) := by
  refine ⟨?_, by decide, by decide⟩
  intro front rest
  have h : verifyMemOp (front :: rest)
      = .returned (.success,
          List.replicate ((Region.getOps (front :: rest)).countP Op.isAllocWithoutId)
            ⟨.self, .allocNoId⟩) := by
    simp only [verifyMemOp, memLoop_eq_replicate]
  refine ⟨h, ?_⟩
  intro hall
  have hc : (Region.getOps (front :: rest)).countP Op.isAllocWithoutId = 0 := by
    rw [List.countP_eq_zero]
    intro op hop hno
    apply hall op hop
    cases op with
    | alloc id => cases id <;> simp_all [Op.isAllocWithoutId]
    | _ => simp [Op.isAllocWithoutId] at hno
  rw [h, hc]
  rfl

/-- C10, at a Mem whose body has two blocks, with two Allocations without id among
four, and at a Mem whose Allocations all have the attribute. -/
theorem C10_mem_alloc_id_witness :
    verifyMemOp [[.alloc none, .alloc (some "a")], [.alloc none, .alloc (some "b"), .endOp]]
      = .returned (.success, [⟨.self, .allocNoId⟩, ⟨.self, .allocNoId⟩]) ∧
    verifyMemOp [[.alloc (some "a"), .other "std.constant"], [.alloc (some "b"), .endOp]]
      = .returned (.success, []) :=
  ⟨(C10_mem_alloc_id.1 _ _).1,
    (C10_mem_alloc_id.1 [.alloc (some "a"), .other "std.constant"]
      [[.alloc (some "b"), .endOp]]).2 (by decide)⟩

/-! ## Switchbox: one entry of the loop -/

/-- The loop of `verify(SwitchboxOp)` at an entry: it returns failure with one
diagnostic on the entry, or emits the diagnostics of the entry and goes on with
the sets of the entry added. -/
theorem switchboxLoop_cons (op : Op) (rest : List Op)
    (sourceset destset : DenseSet) (k : Nat) :
    switchboxLoop sourceset destset k (op :: rest)
      = match entryFails sourceset destset op with
        | some m => (.failure, [⟨.entry k, m⟩])
        | none =>
          emitThen (entryDiags k op)
            (switchboxLoop (nextSources sourceset op) (nextDests destset op) (k + 1) rest) := by
  cases op with
  | connect source dest =>
    by_cases hd : dest ∈ destset <;>
      simp [switchboxLoop, entryFails, entryDiags, nextSources, nextDests, hd]
  | masterset dest amsels =>
    by_cases hd : dest ∈ destset <;>
      simp [switchboxLoop, entryFails, entryDiags, nextSources, nextDests, hd]
  | packetRules source =>
    by_cases hs : source ∈ sourceset <;>
      simp [switchboxLoop, entryFails, entryDiags, nextSources, nextDests, hs, emitThen]
  | amsel a m =>
    simp [switchboxLoop, entryFails, entryDiags, nextSources, nextDests, emitThen]
  | endOp =>
    simp [switchboxLoop, entryFails, entryDiags, nextSources, nextDests, emitThen]
  | packetSource => simp [switchboxLoop, entryFails]
  | packetDest => simp [switchboxLoop, entryFails]
  | alloc id => simp [switchboxLoop, entryFails]
  | switchbox => simp [switchboxLoop, entryFails]
  | other name => simp [switchboxLoop, entryFails]

/-- The loop of `verify(SwitchboxOp)` returns success or failure. -/
theorem switchboxLoop_failure_iff (body : List Op) (sourceset destset : DenseSet) (k : Nat) :
    (switchboxLoop sourceset destset k body).1 = .failure
      ↔ ¬ (switchboxLoop sourceset destset k body).1 = .success := by
  cases (switchboxLoop sourceset destset k body).1 <;> simp

/-- An entry lets the loop go on exactly when it is of the five classes, its
destination is not in `destset`, and, for a `packetRules`, its source is not in
`sourceset`. -/
theorem entryFails_eq_none_iff (sourceset destset : DenseSet) (op : Op) :
    entryFails sourceset destset op = none ↔
      op.isSwitchboxEntry = true ∧
      (∀ p, op.destPort = some p → p ∉ destset) ∧
      (∀ p, op.packetRulesSource = some p → p ∉ sourceset) := by
  cases op with
  | connect source dest =>
    by_cases hd : dest ∈ destset <;>
      simp [entryFails, Op.isSwitchboxEntry, Op.destPort, Op.packetRulesSource, hd]
  | masterset dest amsels =>
    by_cases hd : dest ∈ destset <;>
      simp [entryFails, Op.isSwitchboxEntry, Op.destPort, Op.packetRulesSource, hd]
  | packetRules source =>
    by_cases hs : source ∈ sourceset <;>
      simp [entryFails, Op.isSwitchboxEntry, Op.destPort, Op.packetRulesSource, hs]
  | _ => simp [entryFails, Op.isSwitchboxEntry, Op.destPort, Op.packetRulesSource]

/-- The members of `destset` after an entry. -/
theorem mem_nextDests (destset : DenseSet) (op : Op) (q : Port) :
    q ∈ nextDests destset op ↔ q ∈ destset ∨ op.destPort = some q := by
  cases op <;> simp [nextDests, Op.destPort, or_comm, eq_comm]

/-- The members of `sourceset` after an entry. -/
theorem mem_nextSources (sourceset : DenseSet) (op : Op) (q : Port) :
    q ∈ nextSources sourceset op ↔
      q ∈ sourceset ∨ op.connectSource = some q ∨ op.packetRulesSource = some q := by
  cases op <;> simp [nextSources, Op.connectSource, Op.packetRulesSource, or_comm, eq_comm]

/-- The verdict of the loop at an entry: success when the entry lets the loop go
on and the rest of the loop returns success. -/
theorem switchboxLoop_cons_success_iff (op : Op) (rest : List Op)
    (sourceset destset : DenseSet) (k : Nat) :
    (switchboxLoop sourceset destset k (op :: rest)).1 = .success ↔
      entryFails sourceset destset op = none ∧
      (switchboxLoop (nextSources sourceset op) (nextDests destset op) (k + 1) rest).1
        = .success := by
  rw [switchboxLoop_cons]
  cases h : entryFails sourceset destset op <;> simp

/-- The loop of `verify(SwitchboxOp)` returns success exactly on bodies of the five
classes in which no destination comes twice or is in `destset`, and no
`packetRules` has the source of an earlier `connect` or `packetRules` or one in
`sourceset`. -/
theorem switchboxLoop_success_iff (body : List Op) :
    ∀ (sourceset destset : DenseSet) (k : Nat),
      (switchboxLoop sourceset destset k body).1 = .success ↔
        (∀ op ∈ body, op.isSwitchboxEntry = true) ∧
        body.Pairwise (fun a b => ¬ Op.sameDest a b) ∧
        body.Pairwise (fun a b => ¬ Op.sourceThenPacket a b) ∧
        (∀ b ∈ body, ∀ p, b.destPort = some p → p ∉ destset) ∧
        (∀ b ∈ body, ∀ p, b.packetRulesSource = some p → p ∉ sourceset) := by
  induction body with
  | nil => intro ss ds k; simp [switchboxLoop]
  | cons op rest ih =>
    intro ss ds k
    rw [switchboxLoop_cons_success_iff, ih, entryFails_eq_none_iff]
    simp only [mem_nextDests, mem_nextSources, List.pairwise_cons, List.mem_cons,
      forall_eq_or_imp, Op.sameDest, Op.sourceThenPacket, not_or, not_exists, not_and]
    constructor
    · rintro ⟨⟨h1, h2, h3⟩, h4, h5, h6, h7, h8⟩
      refine ⟨⟨h1, h4⟩, ⟨?_, h5⟩, ⟨?_, h6⟩, ⟨h2, ?_⟩, ⟨h3, ?_⟩⟩
      · intro b hb p hp hbp
        exact (h7 b hb p hbp).2 hp
      · intro b hb p hp hbp
        rcases hp with hp | hp
        · exact (h8 b hb p hbp).2.1 hp
        · exact (h8 b hb p hbp).2.2 hp
      · intro b hb p hbp; exact (h7 b hb p hbp).1
      · intro b hb p hbp; exact (h8 b hb p hbp).1
    · rintro ⟨⟨h1, h4⟩, ⟨hd, h5⟩, ⟨hs, h6⟩, ⟨h2, h7⟩, ⟨h3, h8⟩⟩
      refine ⟨⟨h1, h2, h3⟩, h4, h5, h6, ?_, ?_⟩
      · intro b hb p hbp
        exact ⟨h7 b hb p hbp, fun hp => hd b hb p hp hbp⟩
      · intro b hb p hbp
        exact ⟨h8 b hb p hbp, fun hp => hs b hb p (Or.inl hp) hbp,
          fun hp => hs b hb p (Or.inr hp) hbp⟩

/-- A list has two entries in relation `R`, the first before the second, exactly
when it is not pairwise out of `R`. -/
theorem exists_pair_iff_not_pairwise {α : Type} (R : α → α → Prop) (l : List α) :
    (∃ (i j : Nat) (a b : α), i < j ∧ l[i]? = some a ∧ l[j]? = some b ∧ R a b)
      ↔ ¬ l.Pairwise (fun a b => ¬ R a b) := by
  induction l with
  | nil => simp
  | cons x xs ih =>
    rw [List.pairwise_cons]
    constructor
    · rintro ⟨i, j, a, b, hij, ha, hb, hR⟩ ⟨hx, hxs⟩
      obtain ⟨j, rfl⟩ : ∃ j2, j = j2 + 1 := ⟨j - 1, by omega⟩
      simp only [List.getElem?_cons_succ] at hb
      cases i with
      | zero =>
        simp only [List.getElem?_cons_zero, Option.some.injEq] at ha
        subst ha
        exact hx b (List.getElem?_mem hb) hR
      | succ i =>
        simp only [List.getElem?_cons_succ] at ha
        exact (ih.mp ⟨i, j, a, b, by omega, ha, hb, hR⟩) hxs
    · intro h
      by_cases hx : ∀ b ∈ xs, ¬ R x b
      · have hxs : ¬ xs.Pairwise (fun a b => ¬ R a b) := fun hp => h ⟨hx, hp⟩
        obtain ⟨i, j, a, b, hij, ha, hb, hR⟩ := ih.mpr hxs
        exact ⟨i + 1, j + 1, a, b, by omega, by simpa using ha, by simpa using hb, hR⟩
      · push_neg at hx
        obtain ⟨b, hb, hR⟩ := hx
        obtain ⟨j, hj⟩ := List.getElem?_of_mem hb
        exact ⟨0, j + 1, x, b, by omega, by simp, by simpa using hj, hR⟩

/-- The verdict of `verify(SwitchboxOp)` on a region with a front block. -/
theorem verifySwitchboxOp_verdict (front : Block) (rest : List Block) :
    (verifySwitchboxOp (front :: rest)).verdict
      = some (switchboxLoop DenseSet.empty DenseSet.empty 0 front).1 := rfl

/-- The diagnostics of `verify(SwitchboxOp)` on a region with a front block. -/
theorem verifySwitchboxOp_diags (front : Block) (rest : List Block) :
    (verifySwitchboxOp (front :: rest)).diags
      = (switchboxLoop DenseSet.empty DenseSet.empty 0 front).2 := rfl

/-- The function `verify(SwitchboxOp)` returns success exactly on the front blocks
of the five classes with no destination twice and no `packetRules` on the source
of an earlier `connect` or `packetRules`. -/
theorem verifySwitchboxOp_success_iff (front : Block) (rest : List Block) :
    (verifySwitchboxOp (front :: rest)).verdict = some .success ↔
      (∀ op ∈ front, op.isSwitchboxEntry = true) ∧
      front.Pairwise (fun a b => ¬ Op.sameDest a b) ∧
      front.Pairwise (fun a b => ¬ Op.sourceThenPacket a b) := by
  rw [verifySwitchboxOp_verdict, Option.some.injEq, switchboxLoop_success_iff]
  simp

/-- The function `verify(SwitchboxOp)` returns failure when it does not return
success. -/
theorem verifySwitchboxOp_failure_iff (front : Block) (rest : List Block) :
    (verifySwitchboxOp (front :: rest)).verdict = some .failure ↔
      ¬ (verifySwitchboxOp (front :: rest)).verdict = some .success := by
  rw [verifySwitchboxOp_verdict, Option.some.injEq, Option.some.injEq]
  exact switchboxLoop_failure_iff front _ _ 0

/-! ## Switchbox: other entries, lock uses, duplicate sources -/

/-- C13: a Switchbox body with an entry that is not a Connection, a MasterSet, a
PacketRule, an AMSel or an end marker makes the Switchbox verifier return
failure. -/
theorem C13_other_entry_returns_failure (front : Block) (rest : List Block) (op : Op)
    (hop : op ∈ front) (hclass : op.isSwitchboxEntry = false) :
    (verifySwitchboxOp (front :: rest)).verdict = some .failure := by
  rw [verifySwitchboxOp_failure_iff, verifySwitchboxOp_success_iff]
  rintro ⟨hall, _, _⟩
  rw [hall op hop] at hclass
  exact Bool.noConfusion hclass

/-- C13, at a body with a PacketSource after a Connection. -/
theorem C13_other_entry_witness :
    (verifySwitchboxOp [[.connect (.DMA, 0) (.North, 0), .packetSource, .endOp]]).verdict
      = some .failure :=
  C13_other_entry_returns_failure
    [.connect (.DMA, 0) (.North, 0), .packetSource, .endOp] [] .packetSource
    (by decide) rfl

/-- C15: the UseLock verifier returns success and emits no diagnostic, whether the
lock value is defined by a Lock, by another operation, or by no operation. -/
theorem C15_use_lock_returns_success (lockDefiningOp : Option Op) :
    verifyUseLockOp lockDefiningOp = .returned (.success, []) := rfl

/-- The loop of `verify(SwitchboxOp)` on `connect` and `endOp` entries with
indices in range and destinations pairwise distinct and not in `destset`. -/
theorem switchboxLoop_connects_in_range (body : List Op) :
    ∀ (sourceset destset : DenseSet) (k : Nat),
      (∀ op ∈ body, op.isConnectOrEnd = true) →
      (∀ s d, Op.connect s d ∈ body →
        Port.inRange SwitchboxOp.getNumSourceConnections s ∧
        Port.inRange SwitchboxOp.getNumDestConnections d) →
      (body.filterMap Op.connectDest).Nodup →
      (∀ p ∈ body.filterMap Op.connectDest, p ∉ destset) →
      switchboxLoop sourceset destset k body = (.success, []) := by
  induction body with
  | nil => intro _ _ _ _ _ _ _; rfl
  | cons op rest ih =>
    intro ss ds k hkind hrange hnodup hfresh
    have hkrest : ∀ o ∈ rest, o.isConnectOrEnd = true :=
      fun o ho => hkind o (List.mem_cons_of_mem _ ho)
    have hrrest : ∀ s d, Op.connect s d ∈ rest →
        Port.inRange SwitchboxOp.getNumSourceConnections s ∧
        Port.inRange SwitchboxOp.getNumDestConnections d :=
      fun s d h => hrange s d (List.mem_cons_of_mem _ h)
    cases op with
    | connect source dest =>
      simp only [List.filterMap_cons, Op.connectDest, List.nodup_cons, List.mem_cons,
        forall_eq_or_imp] at hnodup hfresh
      obtain ⟨⟨hs0, hs1⟩, ⟨hd0, hd1⟩⟩ := hrange source dest (List.mem_cons_self _ _)
      have hrec := ih (DenseSet.insert ss source) (DenseSet.insert ds dest) (k + 1)
        hkrest hrrest hnodup.2 (by
          intro p hp
          rw [DenseSet.mem_insert]
          rintro (rfl | h)
          · exact hnodup.1 hp
          · exact hfresh.2 p hp h)
      have e1 : ¬ source.2 < 0 := by omega
      have e2 : ¬ source.2 ≥ SwitchboxOp.getNumSourceConnections source.1 := by omega
      have e3 : ¬ dest.2 < 0 := by omega
      have e4 : ¬ dest.2 ≥ SwitchboxOp.getNumDestConnections dest.1 := by omega
      simp [switchboxLoop, hfresh.1, hrec, emitThen, emitIf, e1, e2, e3, e4]
    | endOp =>
      simp only [List.filterMap_cons, Op.connectDest] at hnodup hfresh
      simpa [switchboxLoop] using ih ss ds (k + 1) hkrest hrrest hnodup hfresh
    | _ => exact absurd (hkind _ (List.mem_cons_self _ _)) (by simp [Op.isConnectOrEnd])

/-- C16: a Switchbox body made only of Connections and end markers, with every
source and destination index in range and the destination ports pairwise
distinct, makes the Switchbox verifier return success with no diagnostic,
however many Connections have the same source port. -/
theorem C16_duplicate_sources_allowed (front : Block) (rest : List Block)
    (hkind : ∀ op ∈ front, op.isConnectOrEnd = true)
    (hrange : ∀ s d, Op.connect s d ∈ front →
      Port.inRange SwitchboxOp.getNumSourceConnections s ∧
      Port.inRange SwitchboxOp.getNumDestConnections d)
    (hnodup : (front.filterMap Op.connectDest).Nodup) :
    verifySwitchboxOp (front :: rest) = .returned (.success, []) := by
  simp only [verifySwitchboxOp]
  rw [switchboxLoop_connects_in_range front _ _ 0 hkind hrange hnodup (by simp)]

/-- C16, at a body of three Connections from the one source (DMA,0). -/
theorem C16_duplicate_sources_witness :
    verifySwitchboxOp [[.connect (.DMA, 0) (.North, 0), .connect (.DMA, 0) (.North, 5),
        .connect (.DMA, 0) (.ME, 1), .endOp]] = .returned (.success, []) :=
  C16_duplicate_sources_allowed
    [.connect (.DMA, 0) (.North, 0), .connect (.DMA, 0) (.North, 5),
      .connect (.DMA, 0) (.ME, 1), .endOp] []
    (by decide)
    (by
      intro s d h
      simp only [List.mem_cons, Op.connect.injEq, List.mem_singleton, reduceCtorEq,
        or_false, List.not_mem_nil] at h
      rcases h with ⟨rfl, rfl⟩ | ⟨rfl, rfl⟩ | ⟨rfl, rfl⟩ <;>
        simp [Port.inRange, SwitchboxOp.getNumSourceConnections,
          SwitchboxOp.getNumDestConnections])
    (by decide)

/-! ## Switchbox: the verdict -/

/-- Two calls of `verify(SwitchboxOp)` that return success on the same condition
return the same verdict. -/
theorem verifySwitchboxOp_verdict_congr (front front2 : Block) (rest rest2 : List Block)
    (h : (verifySwitchboxOp (front :: rest)).verdict = some .success ↔
      (verifySwitchboxOp (front2 :: rest2)).verdict = some .success) :
    (verifySwitchboxOp (front :: rest)).verdict
      = (verifySwitchboxOp (front2 :: rest2)).verdict := by
  simp only [verifySwitchboxOp_verdict, Option.some.injEq] at h ⊢
  cases h1 : (switchboxLoop DenseSet.empty DenseSet.empty 0 front).1 <;>
    cases h2 : (switchboxLoop DenseSet.empty DenseSet.empty 0 front2).1 <;>
    simp_all

/-- Renaming the ports along an injective map keeps which entries have the same
destination. -/
theorem Op.sameDest_mapPorts (f : Port → Port) (hf : Function.Injective f) (a b : Op) :
    Op.sameDest (a.mapPorts f) (b.mapPorts f) ↔ Op.sameDest a b := by
  have key : ∀ (o : Op) (q : Port), (o.mapPorts f).destPort = some q ↔
      ∃ p, o.destPort = some p ∧ f p = q := by
    intro o q
    cases o <;> simp [Op.mapPorts, Op.destPort]
  constructor
  · rintro ⟨q, ha, hb⟩
    obtain ⟨p, hpa, hp⟩ := (key a q).1 ha
    obtain ⟨p2, hpb, hp2⟩ := (key b q).1 hb
    have : p2 = p := hf (hp2.trans hp.symm)
    subst this
    exact ⟨p2, hpa, hpb⟩
  · rintro ⟨p, ha, hb⟩
    exact ⟨f p, (key a _).2 ⟨p, ha, rfl⟩, (key b _).2 ⟨p, hb, rfl⟩⟩

/-- Renaming the ports along an injective map keeps which `packetRules` has the
source of an earlier `connect` or `packetRules`. -/
theorem Op.sourceThenPacket_mapPorts (f : Port → Port) (hf : Function.Injective f)
    (a b : Op) :
    Op.sourceThenPacket (a.mapPorts f) (b.mapPorts f) ↔ Op.sourceThenPacket a b := by
  have kc : ∀ (o : Op) (q : Port), (o.mapPorts f).connectSource = some q ↔
      ∃ p, o.connectSource = some p ∧ f p = q := by
    intro o q
    cases o <;> simp [Op.mapPorts, Op.connectSource]
  have kp : ∀ (o : Op) (q : Port), (o.mapPorts f).packetRulesSource = some q ↔
      ∃ p, o.packetRulesSource = some p ∧ f p = q := by
    intro o q
    cases o <;> simp [Op.mapPorts, Op.packetRulesSource]
  constructor
  · rintro ⟨q, ha, hb⟩
    obtain ⟨p2, hpb, hp2⟩ := (kp b q).1 hb
    rcases ha with ha | ha
    · obtain ⟨p, hpa, hp⟩ := (kc a q).1 ha
      have : p2 = p := hf (hp2.trans hp.symm)
      subst this
      exact ⟨p2, Or.inl hpa, hpb⟩
    · obtain ⟨p, hpa, hp⟩ := (kp a q).1 ha
      have : p2 = p := hf (hp2.trans hp.symm)
      subst this
      exact ⟨p2, Or.inr hpa, hpb⟩
  · rintro ⟨p, ha, hb⟩
    refine ⟨f p, ?_, (kp b _).2 ⟨p, hb, rfl⟩⟩
    rcases ha with ha | ha
    · exact Or.inl ((kc a _).2 ⟨p, ha, rfl⟩)
    · exact Or.inr ((kp a _).2 ⟨p, ha, rfl⟩)

/-- The verdict of `verify(SwitchboxOp)` is kept by an injective renaming of the
ports. -/
theorem verifySwitchboxOp_verdict_mapPorts (f : Port → Port) (hf : Function.Injective f)
    (front : Block) (rest rest2 : List Block) :
    (verifySwitchboxOp (front.map (Op.mapPorts f) :: rest2)).verdict
      = (verifySwitchboxOp (front :: rest)).verdict := by
  apply verifySwitchboxOp_verdict_congr
  rw [verifySwitchboxOp_success_iff, verifySwitchboxOp_success_iff, List.pairwise_map,
    List.pairwise_map]
  have h1 : (∀ op ∈ front.map (Op.mapPorts f), op.isSwitchboxEntry = true)
      ↔ ∀ op ∈ front, op.isSwitchboxEntry = true := by
    simp only [List.mem_map, forall_exists_index, and_imp, forall_apply_eq_imp_iff₂]
    constructor
    · intro h op hop
      have := h op hop
      cases op <;> simp_all [Op.mapPorts, Op.isSwitchboxEntry]
    · intro h op hop
      have := h op hop
      cases op <;> simp_all [Op.mapPorts, Op.isSwitchboxEntry]
  rw [h1, List.Pairwise.iff (fun a b => not_congr (Op.sameDest_mapPorts f hf a b)),
    List.Pairwise.iff (fun a b => not_congr (Op.sourceThenPacket_mapPorts f hf a b))]

/-- The verdict of `verify(SwitchboxOp)` is kept when the `amsels()` of every
`masterset` are removed. -/
theorem verifySwitchboxOp_verdict_eraseAmsels (front : Block) (rest rest2 : List Block) :
    (verifySwitchboxOp (front.map Op.eraseAmsels :: rest2)).verdict
      = (verifySwitchboxOp (front :: rest)).verdict := by
  apply verifySwitchboxOp_verdict_congr
  rw [verifySwitchboxOp_success_iff, verifySwitchboxOp_success_iff, List.pairwise_map,
    List.pairwise_map]
  have h1 : (∀ op ∈ front.map Op.eraseAmsels, op.isSwitchboxEntry = true)
      ↔ ∀ op ∈ front, op.isSwitchboxEntry = true := by
    simp only [List.mem_map, forall_exists_index, and_imp, forall_apply_eq_imp_iff₂]
    constructor
    · intro h op hop
      have := h op hop
      cases op <;> simp_all [Op.eraseAmsels, Op.isSwitchboxEntry]
    · intro h op hop
      have := h op hop
      cases op <;> simp_all [Op.eraseAmsels, Op.isSwitchboxEntry]
  have hd : ∀ o : Op, o.eraseAmsels.destPort = o.destPort := by
    intro o; cases o <;> rfl
  have hc : ∀ o : Op, o.eraseAmsels.connectSource = o.connectSource := by
    intro o; cases o <;> rfl
  have hp : ∀ o : Op, o.eraseAmsels.packetRulesSource = o.packetRulesSource := by
    intro o; cases o <;> rfl
  rw [h1]
  simp only [Op.sameDest, Op.sourceThenPacket, hd, hc, hp]

/-- C17: the Switchbox verifier returns failure if and only if the body has (a) a
Connection or MasterSet with the destination port of an earlier Connection or
MasterSet, or (b) a PacketRule with the source port of an earlier Connection or
PacketRule, or (c) an entry that is none of Connection, MasterSet, PacketRule,
AMSel, end marker. The verdict is kept by any injective renaming of the ports,
which can move indices in and out of range, and by removing the AMSel
references of the MasterSets; a Connection after a PacketRule on the same
source, an index out of range and an arbiter mismatch each leave the verdict at
success. -/
theorem C17_switchbox_verdict_iff :
    (∀ (front : Block) (rest : List Block),
      (verifySwitchboxOp (front :: rest)).verdict = some .failure ↔
        (∃ (i j : Nat) (a b : Op), i < j ∧ front[i]? = some a ∧ front[j]? = some b ∧
          Op.sameDest a b) ∨
        (∃ (i j : Nat) (a b : Op), i < j ∧ front[i]? = some a ∧ front[j]? = some b ∧
          Op.sourceThenPacket a b) ∨
        (∃ op ∈ front, op.isSwitchboxEntry = false)) ∧
    (∀ (f : Port → Port) (front : Block) (rest : List Block), Function.Injective f →
      (verifySwitchboxOp (front.map (Op.mapPorts f) :: rest)).verdict
        = (verifySwitchboxOp (front :: rest)).verdict) ∧
    (∀ (front : Block) (rest : List Block),
      (verifySwitchboxOp (front.map Op.eraseAmsels :: rest)).verdict
        = (verifySwitchboxOp (front :: rest)).verdict) ∧
    (verifySwitchboxOp [[.packetRules (.DMA, 0), .connect (.DMA, 0) (.North, 0),
        .endOp]]).verdict = some .success ∧
    (verifySwitchboxOp [[.connect (.South, 7) (.ME, -3), .masterset (.West, 9) [],
        .endOp]]).verdict = some .success ∧
    (verifySwitchboxOp [[.amsel 0 0, .amsel 1 0, .masterset (.North, 0) [0, 1],
        .endOp]]).verdict = some .success := by
  refine ⟨?_, ?_, ?_, by decide, by decide, by decide⟩
  · intro front rest
    rw [verifySwitchboxOp_failure_iff, verifySwitchboxOp_success_iff,
      exists_pair_iff_not_pairwise, exists_pair_iff_not_pairwise]
    constructor
    · intro h
      by_contra hcon
      push_neg at hcon
      apply h
      refine ⟨?_, hcon.1, hcon.2.1⟩
      intro op hop
      have := hcon.2.2 op hop
      cases hb : op.isSwitchboxEntry
      · exact absurd hb this
      · rfl
    · rintro (h | h | ⟨op, hop, hb⟩) ⟨h1, h2, h3⟩
      · exact h h2
      · exact h h3
      · rw [h1 op hop] at hb
        exact Bool.noConfusion hb
  · intro f front rest hf
    exact verifySwitchboxOp_verdict_mapPorts f hf front rest rest
  · intro front rest
    exact verifySwitchboxOp_verdict_eraseAmsels front rest rest

/-- C17, at a body with two PacketRules on one source, and at a body renamed by
shifting every index by ten, out of every range. -/
theorem C17_switchbox_verdict_witness :
    (verifySwitchboxOp [[.packetRules (.West, 1), .amsel 0 0, .packetRules (.West, 1),
        .endOp]]).verdict = some .failure ∧
    (verifySwitchboxOp ([Op.connect (.DMA, 0) (.North, 0), .packetRules (.DMA, 1),
        .endOp].map (Op.mapPorts (fun p => (p.1, p.2 + 10))) :: [])).verdict
      = (verifySwitchboxOp [[.connect (.DMA, 0) (.North, 0), .packetRules (.DMA, 1),
        .endOp]]).verdict :=
  ⟨(C17_switchbox_verdict_iff.1
      [.packetRules (.West, 1), .amsel 0 0, .packetRules (.West, 1), .endOp] []).2
      (Or.inr (Or.inl ⟨0, 2, .packetRules (.West, 1), .packetRules (.West, 1),
        by decide, rfl, rfl, (.West, 1), Or.inr rfl, rfl⟩)),
    C17_switchbox_verdict_iff.2.1 (fun p => (p.1, p.2 + 10)) _ []
      (by
        intro p q h
        simp only [Prod.mk.injEq, add_left_inj] at h
        exact Prod.ext h.1 h.2)⟩

/-! ## Switchbox: the diagnostics -/

/-- The arbiter loop emits one diagnostic for each pair of consecutive indices,
the starting value of `arbiter` first, on which the test of the loop holds. -/
theorem arbiterLoop_eq_replicate (i : Nat) (l : List Int) :
    ∀ a0 : Int, arbiterLoop i a0 l
      = List.replicate (((a0 :: l).zip l).countP arbiterMismatch)
          ⟨.entry i, .oneArbiter⟩ := by
  induction l with
  | nil => intro a0; rfl
  | cons x xs ih =>
    intro a0
    simp only [arbiterLoop, ih, List.zip_cons_cons, List.countP_cons]
    by_cases h : arbiterMismatch (a0, x) = true
    · have h2 : (a0 != -1 && a0 != x) = true := h
      simp [emitIf, h, h2, List.replicate_succ, Nat.add_comm]
    · have h2 : ¬ (a0 != -1 && a0 != x) = true := h
      simp [emitIf, h, h2]

/-- Every diagnostic of the arbiter loop is the arbiter diagnostic on the entry. -/
theorem mem_arbiterLoop (i : Nat) (a0 : Int) (l : List Int) (d : Diag)
    (h : d ∈ arbiterLoop i a0 l) : d = ⟨.entry i, .oneArbiter⟩ := by
  rw [arbiterLoop_eq_replicate] at h
  exact (List.mem_replicate.1 h).2

/-- Every diagnostic emitted at an entry is on that entry. -/
theorem entryDiags_loc (k : Nat) (op : Op) (d : Diag) (h : d ∈ entryDiags k op) :
    d.loc = .entry k := by
  cases op with
  | connect source dest =>
    simp only [entryDiags, emitIf, List.mem_append] at h
    rcases h with ((h | h) | h) | h <;> split at h <;> simp_all
  | masterset dest amsels =>
    simp only [entryDiags, emitIf, List.mem_append] at h
    rcases h with (h | h) | h
    · split at h <;> simp_all
    · split at h <;> simp_all
    · rw [mem_arbiterLoop _ _ _ _ h]
  | _ => simp [entryDiags] at h

/-- Every diagnostic of `bodyDiags` is on an entry at or after the first position. -/
theorem bodyDiags_loc (body : List Op) :
    ∀ (k : Nat) (d : Diag), d ∈ bodyDiags k body → ∃ j, k ≤ j ∧ d.loc = .entry j := by
  induction body with
  | nil => intro k d h; simp [bodyDiags] at h
  | cons op rest ih =>
    intro k d h
    simp only [bodyDiags, List.mem_append] at h
    rcases h with h | h
    · exact ⟨k, le_refl k, entryDiags_loc k op d h⟩
    · obtain ⟨j, hj, hloc⟩ := ih (k + 1) d h
      exact ⟨j, by omega, hloc⟩

/-- When the loop of `verify(SwitchboxOp)` returns success, its diagnostics are
the ones emitted at the entries, in body order. -/
theorem switchboxLoop_diags_of_success (body : List Op) :
    ∀ (sourceset destset : DenseSet) (k : Nat),
      (switchboxLoop sourceset destset k body).1 = .success →
      (switchboxLoop sourceset destset k body).2 = bodyDiags k body := by
  induction body with
  | nil => intro _ _ _ _; rfl
  | cons op rest ih =>
    intro ss ds k h
    have h2 := (switchboxLoop_cons_success_iff op rest ss ds k).1 h
    rw [switchboxLoop_cons, h2.1]
    simp only [emitThen_snd, bodyDiags]
    rw [ih _ _ _ h2.2]

/-- Every diagnostic of the loop of `verify(SwitchboxOp)` is one emitted at an
entry, or the returned one, which is not on a range and not on an arbiter. -/
theorem mem_switchboxLoop_diags (body : List Op) :
    ∀ (sourceset destset : DenseSet) (k : Nat) (d : Diag),
      d ∈ (switchboxLoop sourceset destset k body).2 →
      d ∈ bodyDiags k body ∨ (d.msg.isRange = false ∧ d.msg.isOneArbiter = false) := by
  induction body with
  | nil => intro _ _ _ d h; simp [switchboxLoop] at h
  | cons op rest ih =>
    intro ss ds k d h
    rw [switchboxLoop_cons] at h
    cases hf : entryFails ss ds op with
    | some m =>
      rw [hf] at h
      simp only [List.mem_singleton] at h
      subst h
      right
      cases op <;> simp only [entryFails] at hf <;>
        first
        | (split at hf <;> simp at hf <;> subst hf <;> exact ⟨rfl, rfl⟩)
        | (simp at hf; subst hf; exact ⟨rfl, rfl⟩)
        | simp at hf
    | none =>
      rw [hf] at h
      simp only [emitThen_snd, List.mem_append] at h
      rcases h with h | h
      · left; simp [bodyDiags, h]
      · rcases ih _ _ _ d h with h2 | h2
        · left; simp [bodyDiags, h2]
        · right; exact h2

/-- The diagnostics of a kind on the entry at position `i`, counted in
`bodyDiags`, are the ones of that kind emitted at the entry. -/
theorem diagsAt_bodyDiags (p : Msg → Bool) (body : List Op) :
    ∀ (k i : Nat) (op : Op), k ≤ i → body[i - k]? = some op →
      diagsAt i p (bodyDiags k body) = (entryDiags i op).countP (fun d => p d.msg) := by
  induction body with
  | nil => intro _ _ _ _ h; simp at h
  | cons hd rest ih =>
    intro k i op hki hop
    simp only [diagsAt, bodyDiags, List.countP_append]
    by_cases hik : i = k
    · subst hik
      simp only [Nat.sub_self, List.getElem?_cons_zero, Option.some.injEq] at hop
      subst hop
      have h1 : (bodyDiags (i + 1) rest).countP
          (fun d => decide (d.loc = .entry i) && p d.msg) = 0 := by
        rw [List.countP_eq_zero]
        intro d hd
        obtain ⟨j, hj, hloc⟩ := bodyDiags_loc rest (i + 1) d hd
        have : j ≠ i := by omega
        simp [hloc, this]
      have h2 : (entryDiags i hd).countP (fun d => decide (d.loc = .entry i) && p d.msg)
          = (entryDiags i hd).countP (fun d => p d.msg) := by
        apply List.countP_congr
        intro d hd2
        simp [entryDiags_loc i hd d hd2]
      rw [h1, h2, Nat.add_zero]
    · have h1 : (entryDiags k hd).countP
          (fun d => decide (d.loc = .entry i) && p d.msg) = 0 := by
        rw [List.countP_eq_zero]
        intro d hd2
        have : k ≠ i := fun h => hik h.symm
        simp [entryDiags_loc k hd d hd2, this]
      have hidx : i - k = (i - (k + 1)) + 1 := by omega
      rw [hidx, List.getElem?_cons_succ] at hop
      have h2 := ih (k + 1) i op (by omega) hop
      simp only [diagsAt] at h2
      rw [h1, h2, Nat.zero_add]

/-- Every diagnostic of `bodyDiags` is emitted at an entry of the body. -/
theorem mem_bodyDiags (body : List Op) :
    ∀ (k : Nat) (d : Diag), d ∈ bodyDiags k body →
      ∃ j op, body[j]? = some op ∧ d ∈ entryDiags (k + j) op := by
  induction body with
  | nil => intro k d h; simp [bodyDiags] at h
  | cons hd rest ih =>
    intro k d h
    simp only [bodyDiags, List.mem_append] at h
    rcases h with h | h
    · exact ⟨0, hd, by simp, by simpa using h⟩
    · obtain ⟨j, op, hj, hmem⟩ := ih (k + 1) d h
      refine ⟨j + 1, op, by simpa using hj, ?_⟩
      have : k + (j + 1) = k + 1 + j := by omega
      rw [this]
      exact hmem

/-- No diagnostic on a range or an arbiter is counted on an entry at which none
of the kind is emitted, whether the loop runs to the end or not. -/
theorem diagsAt_switchboxLoop_eq_zero (p : Msg → Bool) (front : List Op) (i : Nat) (op : Op)
    (sourceset destset : DenseSet)
    (hop : front[i]? = some op)
    (hentry : ∀ d ∈ entryDiags i op, p d.msg = false)
    (hkind : ∀ m, p m = true → m.isRange = true ∨ m.isOneArbiter = true) :
    diagsAt i p (switchboxLoop sourceset destset 0 front).2 = 0 := by
  unfold diagsAt
  rw [List.countP_eq_zero]
  intro d hd
  rcases mem_switchboxLoop_diags front _ _ 0 d hd with h | h
  · obtain ⟨j, op2, hj, hmem⟩ := mem_bodyDiags front 0 d h
    rw [Nat.zero_add] at hmem
    have hloc := entryDiags_loc j op2 d hmem
    by_cases hji : j = i
    · subst hji
      rw [hop] at hj
      cases hj
      simp [hentry d hmem]
    · simp [hloc, hji]
  · have : p d.msg = false := by
      cases hp : p d.msg
      · rfl
      · rcases hkind _ hp with h2 | h2
        · rw [h.1] at h2; exact Bool.noConfusion h2
        · rw [h.2] at h2; exact Bool.noConfusion h2
    simp [this]

/-- The capacities of a Switchbox are not negative. -/
theorem SwitchboxOp.capacities_nonneg (b : WireBundle) :
    0 ≤ SwitchboxOp.getNumSourceConnections b ∧ 0 ≤ SwitchboxOp.getNumDestConnections b := by
  cases b <;> decide

/-- The range diagnostics emitted at a `connect`: one on the source when its index
is out of range, one on the destination when its index is out of range. -/
theorem entryDiags_connect_count (i : Nat) (s d : Port) :
    (entryDiags i (.connect s d)).countP (fun x => x.msg.isSourceRange)
        = (if s.2 < 0 ∨ SwitchboxOp.getNumSourceConnections s.1 ≤ s.2 then 1 else 0) ∧
    (entryDiags i (.connect s d)).countP (fun x => x.msg.isDestRange)
        = (if d.2 < 0 ∨ SwitchboxOp.getNumDestConnections d.1 ≤ d.2 then 1 else 0) := by
  have hs := (SwitchboxOp.capacities_nonneg s.1).1
  have hd := (SwitchboxOp.capacities_nonneg d.1).2
  by_cases h1 : s.2 < 0 <;>
    by_cases h2 : SwitchboxOp.getNumSourceConnections s.1 ≤ s.2 <;>
    by_cases h3 : d.2 < 0 <;>
    by_cases h4 : SwitchboxOp.getNumDestConnections d.1 ≤ d.2 <;>
    first
    | (exfalso; omega)
    | simp [entryDiags, emitIf, List.countP_append, List.countP_cons, h1, h2, h3, h4,
        Msg.isSourceRange, Msg.isDestRange]

/-- The arbiter diagnostics are not range diagnostics. -/
theorem arbiterLoop_countP_range (i : Nat) (a0 : Int) (l : List Int) (p : Msg → Bool)
    (hp : p .oneArbiter = false) :
    (arbiterLoop i a0 l).countP (fun x => p x.msg) = 0 := by
  rw [List.countP_eq_zero]
  intro d hd
  rw [mem_arbiterLoop i a0 l d hd]
  simp [hp]

/-- The range diagnostics emitted at a `masterset`: none on a source, one on the
destination when its index is out of range. -/
theorem entryDiags_masterset_count (i : Nat) (d : Port) (l : List Int) :
    (entryDiags i (.masterset d l)).countP (fun x => x.msg.isSourceRange) = 0 ∧
    (entryDiags i (.masterset d l)).countP (fun x => x.msg.isDestRange)
        = (if d.2 < 0 ∨ SwitchboxOp.getNumDestConnections d.1 ≤ d.2 then 1 else 0) := by
  have hd := (SwitchboxOp.capacities_nonneg d.1).2
  have ha1 := arbiterLoop_countP_range i (-1) l Msg.isSourceRange rfl
  have ha2 := arbiterLoop_countP_range i (-1) l Msg.isDestRange rfl
  simp only [entryDiags, List.countP_append, ha1, ha2, Nat.add_zero]
  by_cases h3 : d.2 < 0 <;>
    by_cases h4 : SwitchboxOp.getNumDestConnections d.1 ≤ d.2 <;>
    first
    | (exfalso; omega)
    | simp [emitIf, List.countP_cons, h3, h4, Msg.isSourceRange, Msg.isDestRange]

/-- The diagnostics of a kind on an entry, when `verify(SwitchboxOp)` returns
success: the ones of that kind emitted at the entry. -/
theorem diagsAt_verifySwitchboxOp (p : Msg → Bool) (front : Block) (rest : List Block)
    (i : Nat) (op : Op)
    (hs : (verifySwitchboxOp (front :: rest)).verdict = some .success)
    (hop : front[i]? = some op) :
    diagsAt i p (verifySwitchboxOp (front :: rest)).diags
      = (entryDiags i op).countP (fun d => p d.msg) := by
  rw [verifySwitchboxOp_verdict, Option.some.injEq] at hs
  rw [verifySwitchboxOp_diags, switchboxLoop_diags_of_success front _ _ 0 hs]
  exact diagsAt_bodyDiags p front 0 i op (Nat.zero_le i) (by simpa using hop)

/-- C18: when the Switchbox verifier runs to the end of the body, the source of a
Connection gets exactly one range diagnostic when its index is negative or not
below the source capacity and none otherwise, and the destination of a Connection
or a MasterSet gets exactly one when its index is negative or not below the
destination capacity and none otherwise, so that the two messages on one
endpoint never come together; a PacketRule never gets a range diagnostic. -/
theorem C18_range_diagnostics :
    (∀ (front : Block) (rest : List Block) (i : Nat) (s d : Port),
      (verifySwitchboxOp (front :: rest)).verdict = some .success →
      front[i]? = some (.connect s d) →
      diagsAt i Msg.isSourceRange (verifySwitchboxOp (front :: rest)).diags
        = (if s.2 < 0 ∨ SwitchboxOp.getNumSourceConnections s.1 ≤ s.2 then 1 else 0) ∧
      diagsAt i Msg.isDestRange (verifySwitchboxOp (front :: rest)).diags
        = (if d.2 < 0 ∨ SwitchboxOp.getNumDestConnections d.1 ≤ d.2 then 1 else 0)) ∧
    (∀ (front : Block) (rest : List Block) (i : Nat) (d : Port) (amsels : List Int),
      (verifySwitchboxOp (front :: rest)).verdict = some .success →
      front[i]? = some (.masterset d amsels) →
      diagsAt i Msg.isSourceRange (verifySwitchboxOp (front :: rest)).diags = 0 ∧
      diagsAt i Msg.isDestRange (verifySwitchboxOp (front :: rest)).diags
        = (if d.2 < 0 ∨ SwitchboxOp.getNumDestConnections d.1 ≤ d.2 then 1 else 0)) ∧
    (∀ (front : Block) (rest : List Block) (i : Nat) (s : Port),
      front[i]? = some (.packetRules s) →
      diagsAt i Msg.isRange (verifySwitchboxOp (front :: rest)).diags = 0) := by
  refine ⟨?_, ?_, ?_⟩
  · intro front rest i s d hs hop
    rw [diagsAt_verifySwitchboxOp _ front rest i _ hs hop,
      diagsAt_verifySwitchboxOp _ front rest i _ hs hop]
    exact entryDiags_connect_count i s d
  · intro front rest i d amsels hs hop
    rw [diagsAt_verifySwitchboxOp _ front rest i _ hs hop,
      diagsAt_verifySwitchboxOp _ front rest i _ hs hop]
    exact entryDiags_masterset_count i d amsels
  · intro front rest i s hop
    rw [verifySwitchboxOp_diags]
    exact diagsAt_switchboxLoop_eq_zero Msg.isRange front i _ _ _ hop
      (by intro d hd; simp [entryDiags] at hd) (fun m hm => Or.inl hm)

/-- C18, at a body whose first Connection has its source index above the range and
its destination index below zero, whose MasterSet is in range, and whose
PacketRule has an index out of every range. -/
theorem C18_range_diagnostics_witness :
    (diagsAt 0 Msg.isSourceRange (verifySwitchboxOp [[.connect (.South, 7) (.ME, -1),
        .masterset (.West, 3) [], .packetRules (.DMA, 50), .endOp]]).diags
        = (if (7 : Int) < 0 ∨ SwitchboxOp.getNumSourceConnections .South ≤ 7
            then 1 else 0) ∧
      diagsAt 0 Msg.isDestRange (verifySwitchboxOp [[.connect (.South, 7) (.ME, -1),
        .masterset (.West, 3) [], .packetRules (.DMA, 50), .endOp]]).diags
        = (if (-1 : Int) < 0 ∨ SwitchboxOp.getNumDestConnections .ME ≤ -1
            then 1 else 0)) ∧
    (diagsAt 1 Msg.isSourceRange (verifySwitchboxOp [[.connect (.South, 7) (.ME, -1),
        .masterset (.West, 3) [], .packetRules (.DMA, 50), .endOp]]).diags = 0 ∧
      diagsAt 1 Msg.isDestRange (verifySwitchboxOp [[.connect (.South, 7) (.ME, -1),
        .masterset (.West, 3) [], .packetRules (.DMA, 50), .endOp]]).diags
        = (if (3 : Int) < 0 ∨ SwitchboxOp.getNumDestConnections .West ≤ 3
            then 1 else 0)) ∧
    diagsAt 2 Msg.isRange (verifySwitchboxOp [[.connect (.South, 7) (.ME, -1),
        .masterset (.West, 3) [], .packetRules (.DMA, 50), .endOp]]).diags = 0 :=
  ⟨C18_range_diagnostics.1 _ [] 0 (.South, 7) (.ME, -1) (by decide) rfl,
    C18_range_diagnostics.2.1 _ [] 1 (.West, 3) [] (by decide) rfl,
    C18_range_diagnostics.2.2 _ [] 2 (.DMA, 50) rfl⟩

/-! ## Switchbox: the arbiter check -/

/-- The arbiter loop from `arbiter = -1`: one diagnostic for each index that
follows an index other than `-1` and different from it. -/
theorem arbiterLoop_neg_one (i : Nat) (l : List Int) :
    arbiterLoop i (-1) l
      = List.replicate ((l.zip l.tail).countP arbiterMismatch) ⟨.entry i, .oneArbiter⟩ := by
  rw [arbiterLoop_eq_replicate]
  cases l with
  | nil => rfl
  | cons x xs =>
    have h : arbiterMismatch (-1, x) = false := by simp [arbiterMismatch]
    simp [List.countP_cons, h]

/-- From a starting value that is not negative, on indices that are not negative,
the arbiter loop emits nothing exactly when every index is the starting value. -/
theorem arbiterLoop_eq_nil_iff (i : Nat) (l : List Int) :
    ∀ a0 : Int, 0 ≤ a0 → (∀ a ∈ l, 0 ≤ a) →
      (arbiterLoop i a0 l = [] ↔ ∀ a ∈ l, a = a0) := by
  induction l with
  | nil => intro a0 _ _; simp [arbiterLoop]
  | cons x xs ih =>
    intro a0 h0 hl
    have hx : 0 ≤ x := hl x (List.mem_cons_self _ _)
    have hxs : ∀ a ∈ xs, 0 ≤ a := fun a ha => hl a (List.mem_cons_of_mem _ ha)
    have hne : a0 ≠ -1 := by omega
    simp only [arbiterLoop, List.append_eq_nil, ih x hx hxs, List.mem_cons, forall_eq_or_imp]
    by_cases hax : a0 = x
    · subst hax
      simp [emitIf]
    · have hxa : ¬ x = a0 := fun h => hax h.symm
      simp [emitIf, hne, hax, hxa]

/-- The arbiter diagnostics emitted at a `masterset`. -/
theorem entryDiags_masterset_arbiter_count (i : Nat) (d : Port) (l : List Int) :
    (entryDiags i (.masterset d l)).countP (fun x => x.msg.isOneArbiter)
      = (l.zip l.tail).countP arbiterMismatch := by
  have h : (arbiterLoop i (-1) l).countP (fun x => x.msg.isOneArbiter)
      = (l.zip l.tail).countP arbiterMismatch := by
    rw [arbiterLoop_neg_one, List.countP_replicate]
    simp [Msg.isOneArbiter]
  simp only [entryDiags, List.countP_append, h]
  by_cases h3 : d.2 < 0 <;>
    by_cases h4 : SwitchboxOp.getNumDestConnections d.1 ≤ d.2 <;>
    simp [emitIf, List.countP_cons, h3, h4, Msg.isOneArbiter]

/-- No arbiter diagnostic is emitted at an entry that is not a `masterset`. -/
theorem entryDiags_not_masterset (i : Nat) (op : Op)
    (hop : ∀ d l, op ≠ .masterset d l) :
    ∀ x ∈ entryDiags i op, x.msg.isOneArbiter = false := by
  intro x hx
  cases op with
  | connect source dest =>
    simp only [entryDiags, emitIf, List.mem_append] at hx
    rcases hx with ((h | h) | h) | h <;> split at h <;> simp_all [Msg.isOneArbiter]
  | masterset dest amsels => exact absurd rfl (hop dest amsels)
  | _ => simp [entryDiags] at hx

/-- C19: for a MasterSet with the arbiter indices a_1..a_n, the arbiter loop emits
"a master port can only be tied to one arbiter" once for each i >= 2 with a_(i-1)
other than -1 and other than a_i, and nothing else; in a run to the end of the
body these are the arbiter diagnostics on the MasterSet, and no entry other than
a MasterSet ever gets one; when every index is at least 0 the diagnostic is
emitted if and only if the indices are not all equal, whereas the indices
[-1, 1] give no diagnostic. -/
theorem C19_arbiter_diagnostics :
    (∀ (i : Nat) (l : List Int),
      arbiterLoop i (-1) l
        = List.replicate ((l.zip l.tail).countP arbiterMismatch)
            ⟨.entry i, .oneArbiter⟩) ∧
    (∀ (front : Block) (rest : List Block) (k : Nat) (d : Port) (l : List Int),
      (verifySwitchboxOp (front :: rest)).verdict = some .success →
      front[k]? = some (.masterset d l) →
      diagsAt k Msg.isOneArbiter (verifySwitchboxOp (front :: rest)).diags
        = (l.zip l.tail).countP arbiterMismatch) ∧
    (∀ (front : Block) (rest : List Block) (k : Nat) (op : Op),
      front[k]? = some op → (∀ d l, op ≠ .masterset d l) →
      diagsAt k Msg.isOneArbiter (verifySwitchboxOp (front :: rest)).diags = 0) ∧
    (∀ (i : Nat) (l : List Int), (∀ a ∈ l, 0 ≤ a) →
      (arbiterLoop i (-1) l ≠ [] ↔ ¬ ∀ a ∈ l, ∀ b ∈ l, a = b)) ∧
    verifySwitchboxOp [[.amsel (-1) 0, .amsel 1 0, .masterset (.North, 0) [-1, 1], .endOp]]
      = .returned (.success, []) := by
  refine ⟨arbiterLoop_neg_one, ?_, ?_, ?_, by decide⟩
  · intro front rest k d l hs hop
    rw [diagsAt_verifySwitchboxOp _ front rest k _ hs hop]
    exact entryDiags_masterset_arbiter_count k d l
  · intro front rest k op hop hnot
    rw [verifySwitchboxOp_diags]
    exact diagsAt_switchboxLoop_eq_zero Msg.isOneArbiter front k op _ _ hop
      (entryDiags_not_masterset k op hnot) (fun m hm => Or.inr hm)
  · intro i l hl
    cases l with
    | nil => simp [arbiterLoop]
    | cons x xs =>
      have hx : 0 ≤ x := hl x (List.mem_cons_self _ _)
      have hxs : ∀ a ∈ xs, 0 ≤ a := fun a ha => hl a (List.mem_cons_of_mem _ ha)
      have hstep : arbiterLoop i (-1) (x :: xs) = arbiterLoop i x xs := by
        simp [arbiterLoop, emitIf]
      rw [hstep, not_iff_not, arbiterLoop_eq_nil_iff i xs x hx hxs]
      constructor
      · intro h a ha b hb
        have e1 : a = x := by
          rcases List.mem_cons.1 ha with rfl | ha
          · rfl
          · exact h a ha
        have e2 : b = x := by
          rcases List.mem_cons.1 hb with rfl | hb
          · rfl
          · exact h b hb
        rw [e1, e2]
      · intro h a ha
        exact h a (List.mem_cons_of_mem _ ha) x (List.mem_cons_self _ _)

/-- C19, at a MasterSet with the indices [2, 2, 0, 0, 3], which has two
mismatches, at a Connection, and at the indices [1, 1, 4], which are not all
equal. -/
theorem C19_arbiter_diagnostics_witness :
    diagsAt 0 Msg.isOneArbiter
        (verifySwitchboxOp [[.masterset (.North, 0) [2, 2, 0, 0, 3], .endOp]]).diags
      = (([2, 2, 0, 0, 3] : List Int).zip [2, 0, 0, 3]).countP arbiterMismatch ∧
    diagsAt 0 Msg.isOneArbiter
        (verifySwitchboxOp [[.connect (.DMA, 0) (.North, 9),
          .masterset (.North, 0) [0, 1]]]).diags = 0 ∧
    arbiterLoop 0 (-1) [1, 1, 4] ≠ [] :=
  ⟨C19_arbiter_diagnostics.2.1 _ [] 0 (.North, 0) [2, 2, 0, 0, 3] (by decide) rfl,
    C19_arbiter_diagnostics.2.2.1 _ [] 0 (.connect (.DMA, 0) (.North, 9)) rfl
      (by intro d l h; cases h),
    (C19_arbiter_diagnostics.2.2.2.1 0 [1, 1, 4] (by decide)).2 (by decide)⟩

/-! ## Switchbox: number of diagnostics of a call -/

/-- C11: on the body with the single entry Connection (South,7) to (ME,2) the
Switchbox verifier emits two diagnostics in one call and returns success; on a
longer body it goes on past four violations, emitting a diagnostic for each, and
returns the fifth one with failure. -/
theorem C11_several_diagnostics_in_one_call :
    verifySwitchboxOp [[.connect (.South, 7) (.ME, 2), .endOp]]
      = .returned (.success,
          [⟨.entry 0, .sourceIndexTooLarge .South 6⟩,
            ⟨.entry 0, .destIndexTooLarge .ME 2⟩]) ∧
    verifySwitchboxOp [[.amsel 0 0, .amsel 1 0, .connect (.South, 7) (.ME, 2),
        .masterset (.West, -1) [0, 1], .connect (.DMA, 0) (.ME, 2), .endOp]]
      = .returned (.failure,
          [⟨.entry 2, .sourceIndexTooLarge .South 6⟩,
            ⟨.entry 2, .destIndexTooLarge .ME 2⟩,
            ⟨.entry 3, .destIndexNegative⟩,
            ⟨.entry 3, .oneArbiter⟩,
            ⟨.entry 4, .sameDestConnect .ME 2⟩]) := by
  decide

/-! ## Repeated validation -/

/-- The loop of `verify(ShimSwitchboxOp)` emits no diagnostic when it returns
success. -/
theorem shimSwitchboxLoop_diags_of_success (body : List Op) :
    ∀ (destset : DenseSet) (k : Nat),
      (shimSwitchboxLoop destset k body).1 = .success →
      (shimSwitchboxLoop destset k body).2 = [] := by
  induction body with
  | nil => intro _ _ _; rfl
  | cons op rest ih =>
    intro ds k h
    cases op with
    | connect source dest =>
      by_cases hd : dest ∈ ds
      · simp [shimSwitchboxLoop, hd] at h
      · simp only [shimSwitchboxLoop, DenseSet.count_eq_true, hd, if_false] at h ⊢
        exact ih _ _ h
    | endOp =>
      simp only [shimSwitchboxLoop] at h ⊢
      exact ih _ _ h
    | _ => simp [shimSwitchboxLoop] at h

/-- The loop of `verify(PacketFlowOp)` emits no diagnostic when it returns
success. -/
theorem packetFlowLoop_diags_of_success (body : List Op) :
    ∀ k : Nat, (packetFlowLoop k body).1 = .success → (packetFlowLoop k body).2 = [] := by
  induction body with
  | nil => intro _ _; rfl
  | cons op rest ih =>
    intro k h
    cases op with
    | packetSource => simp only [packetFlowLoop] at h ⊢; exact ih _ h
    | packetDest => simp only [packetFlowLoop] at h ⊢; exact ih _ h
    | endOp => simp only [packetFlowLoop] at h ⊢; exact ih _ h
    | _ => simp [packetFlowLoop] at h

/-- Nothing is emitted at an entry whose indices are in range and whose arbiter
indices are all equal. -/
theorem entryDiags_eq_nil (i : Nat) (op : Op) (hr : op.indicesInRange)
    (ha : op.oneArbiterIndex) : entryDiags i op = [] := by
  cases op with
  | connect source dest =>
    obtain ⟨⟨hs0, hs1⟩, ⟨hd0, hd1⟩⟩ := hr
    have e1 : ¬ source.2 < 0 := by omega
    have e2 : ¬ source.2 ≥ SwitchboxOp.getNumSourceConnections source.1 := by omega
    have e3 : ¬ dest.2 < 0 := by omega
    have e4 : ¬ dest.2 ≥ SwitchboxOp.getNumDestConnections dest.1 := by omega
    simp [entryDiags, emitIf, e1, e2, e3, e4]
  | masterset dest amsels =>
    obtain ⟨hd0, hd1⟩ := hr
    have e3 : ¬ dest.2 < 0 := by omega
    have e4 : ¬ dest.2 ≥ SwitchboxOp.getNumDestConnections dest.1 := by omega
    have hloop : arbiterLoop i (-1) amsels = [] := by
      rw [arbiterLoop_neg_one]
      have hc : (amsels.zip amsels.tail).countP arbiterMismatch = 0 := by
        rw [List.countP_eq_zero]
        rintro ⟨a, b⟩ hab
        have hmem := List.of_mem_zip hab
        have : a = b := ha a hmem.1 b (List.mem_of_mem_tail hmem.2)
        simp [arbiterMismatch, this]
      rw [hc]
      rfl
    simp [entryDiags, emitIf, e3, e4, hloop]
  | _ => rfl

/-- Nothing is emitted on a body whose entries have their indices in range and
their arbiter indices all equal. -/
theorem bodyDiags_eq_nil (body : List Op) :
    ∀ k : Nat, (∀ op ∈ body, op.indicesInRange ∧ op.oneArbiterIndex) →
      bodyDiags k body = [] := by
  induction body with
  | nil => intro _ _; rfl
  | cons op rest ih =>
    intro k h
    have h1 := h op (List.mem_cons_self _ _)
    simp only [bodyDiags, entryDiags_eq_nil k op h1.1 h1.2, List.nil_append]
    exact ih (k + 1) (fun o ho => h o (List.mem_cons_of_mem _ ho))

/-- C12, as stated, fails on the Mem verifier: on a Mem with one Allocation
without id the verdict is success and the diagnostic list is not empty. -/
theorem C12_success_with_diagnostics :
    (verifyMemOp [[.alloc none, .endOp]]).verdict = some .success ∧
    (verifyMemOp [[.alloc none, .endOp]]).diags ≠ [] := by
  decide

/-- C12, amended: two calls of the Switchbox, ShimSwitchbox, PacketFlow or Mem
verifier on the same body give the same verdict and the same diagnostics; when
the ShimSwitchbox or the PacketFlow verifier returns success its diagnostic list
is empty; the Mem verifier returns success on every body, with an empty
diagnostic list exactly when no Allocation is without id; and when the Switchbox
verifier returns success on a body whose indices are all in range and whose
MasterSets each have equal arbiter indices, its diagnostic list is empty. -/
theorem C12_repeated_validation :
    (∀ body : Region,
      (runTwice verifySwitchboxOp body).2 = (runTwice verifySwitchboxOp body).1 ∧
      (runTwice verifyShimSwitchboxOp body).2 = (runTwice verifyShimSwitchboxOp body).1 ∧
      (runTwice verifyPacketFlowOp body).2 = (runTwice verifyPacketFlowOp body).1 ∧
      (runTwice verifyMemOp body).2 = (runTwice verifyMemOp body).1) ∧
    (∀ body : Region, (verifyShimSwitchboxOp body).verdict = some .success →
      (verifyShimSwitchboxOp body).diags = []) ∧
    (∀ body : Region, (verifyPacketFlowOp body).verdict = some .success →
      (verifyPacketFlowOp body).diags = []) ∧
    (∀ (front : Block) (rest : List Block),
      (verifyMemOp (front :: rest)).verdict = some .success ∧
      ((verifyMemOp (front :: rest)).diags = [] ↔
        ∀ op ∈ Region.getOps (front :: rest), op ≠ .alloc none)) ∧
    (∀ (front : Block) (rest : List Block),
      (∀ op ∈ front, op.indicesInRange ∧ op.oneArbiterIndex) →
      (verifySwitchboxOp (front :: rest)).verdict = some .success →
      (verifySwitchboxOp (front :: rest)).diags = []) := by
  refine ⟨fun body => ⟨rfl, rfl, rfl, rfl⟩, ?_, ?_, ?_, ?_⟩
  · intro body h
    cases body with
    | nil => rfl
    | cons front rest =>
      simp only [verifyShimSwitchboxOp, Outcome.verdict, Option.some.injEq] at h
      exact shimSwitchboxLoop_diags_of_success front _ 0 h
  · intro body h
    cases body with
    | nil => rfl
    | cons front rest =>
      simp only [verifyPacketFlowOp, Outcome.verdict, Option.some.injEq] at h
      exact packetFlowLoop_diags_of_success front 0 h
  · intro front rest
    refine ⟨rfl, ?_⟩
    simp only [verifyMemOp, Outcome.diags, memLoop_eq_replicate]
    rw [List.replicate_eq_nil_iff, List.countP_eq_zero]
    constructor
    · intro h op hop heq
      subst heq
      exact absurd rfl (h _ hop)
    · intro h op hop hno
      apply h op hop
      cases op with
      | alloc id => cases id <;> simp_all [Op.isAllocWithoutId]
      | _ => simp [Op.isAllocWithoutId] at hno
  · intro front rest hall hs
    rw [verifySwitchboxOp_verdict, Option.some.injEq] at hs
    rw [verifySwitchboxOp_diags, switchboxLoop_diags_of_success front _ _ 0 hs]
    exact bodyDiags_eq_nil front 0 hall

/-- C12 as amended, at a ShimSwitchbox body, a PacketFlow body and a Switchbox body
with indices in range and a MasterSet on one arbiter index. -/
theorem C12_repeated_validation_witness :
    (verifyShimSwitchboxOp [[.connect (.South, 9) (.North, 0), .endOp]]).diags = [] ∧
    (verifyPacketFlowOp [[.packetSource, .packetDest, .endOp]]).diags = [] ∧
    (verifySwitchboxOp [[.amsel 1 0, .amsel 1 1, .connect (.DMA, 1) (.North, 5),
        .masterset (.West, 3) [1, 1], .endOp]]).diags = [] :=
  ⟨C12_repeated_validation.2.1 _ (by decide),
    C12_repeated_validation.2.2.1 _ (by decide),
    C12_repeated_validation.2.2.2.2
      [.amsel 1 0, .amsel 1 1, .connect (.DMA, 1) (.North, 5),
        .masterset (.West, 3) [1, 1], .endOp] []
      (by
        intro op hop
        simp only [List.mem_cons, List.mem_singleton, List.not_mem_nil, or_false] at hop
        rcases hop with rfl | rfl | rfl | rfl | rfl <;>
          simp [Op.indicesInRange, Op.oneArbiterIndex, Port.inRange,
            SwitchboxOp.getNumSourceConnections, SwitchboxOp.getNumDestConnections])
      (by decide)⟩

/-! ## Switchbox and ShimSwitchbox -/

/-- On `connect` and `endOp` entries the two loops return the same verdict, and
the diagnostics of the ShimSwitchbox loop are the ones of the Switchbox loop
that are not range diagnostics. -/
theorem switchboxLoop_shimSwitchboxLoop (body : List Op) :
    ∀ (sourceset destset : DenseSet) (k : Nat),
      (∀ op ∈ body, op.isConnectOrEnd = true) →
      (switchboxLoop sourceset destset k body).1 = (shimSwitchboxLoop destset k body).1 ∧
      (switchboxLoop sourceset destset k body).2.filter (fun d => !d.msg.isRange)
        = (shimSwitchboxLoop destset k body).2 := by
  induction body with
  | nil => intro _ _ _ _; exact ⟨rfl, rfl⟩
  | cons op rest ih =>
    intro ss ds k hkind
    have hrest : ∀ o ∈ rest, o.isConnectOrEnd = true :=
      fun o ho => hkind o (List.mem_cons_of_mem _ ho)
    cases op with
    | connect source dest =>
      by_cases hd : dest ∈ ds
      · simp [switchboxLoop, shimSwitchboxLoop, hd, Msg.isRange, Msg.isSourceRange,
          Msg.isDestRange]
      · have h := ih (DenseSet.insert ss source) (DenseSet.insert ds dest) (k + 1) hrest
        simp only [switchboxLoop, shimSwitchboxLoop, DenseSet.count_eq_true, hd, if_false,
          emitThen_fst, emitThen_snd, List.filter_append, h.1, h.2, true_and]
        have hnil : ∀ (c : Bool) (m : Msg), m.isRange = true →
            (emitIf c ⟨.entry k, m⟩).filter (fun d => !d.msg.isRange) = [] := by
          intro c m hm
          cases c <;> simp [emitIf, hm]
        simp only [hnil _ .sourceIndexNegative rfl, hnil _ (.sourceIndexTooLarge _ _) rfl,
          hnil _ .destIndexNegative rfl, hnil _ (.destIndexTooLarge _ _) rfl,
          List.nil_append]
    | endOp =>
      simpa [switchboxLoop, shimSwitchboxLoop] using ih ss ds (k + 1) hrest
    | _ => exact absurd (hkind _ (List.mem_cons_self _ _)) (by simp [Op.isConnectOrEnd])

/-- C20: on a body made only of Connections and end markers, the Switchbox
verifier and the ShimSwitchbox verifier return the same verdict, which is
failure exactly when two Connections have the same destination port; the
diagnostics of the ShimSwitchbox verifier are the ones of the Switchbox verifier
without its range diagnostics. -/
theorem C20_switchbox_shim_same_verdict (front : Block) (rest : List Block)
    (hkind : ∀ op ∈ front, op.isConnectOrEnd = true) :
    (verifySwitchboxOp (front :: rest)).verdict
      = (verifyShimSwitchboxOp (front :: rest)).verdict ∧
    ((verifySwitchboxOp (front :: rest)).verdict = some .failure ↔
      ¬ (front.filterMap Op.connectDest).Nodup) ∧
    ((verifyShimSwitchboxOp (front :: rest)).verdict = some .failure ↔
      ¬ (front.filterMap Op.connectDest).Nodup) ∧
    (verifyShimSwitchboxOp (front :: rest)).diags
      = (verifySwitchboxOp (front :: rest)).diags.filter (fun d => !d.msg.isRange) := by
  have h := switchboxLoop_shimSwitchboxLoop front DenseSet.empty DenseSet.empty 0 hkind
  have hs := shimSwitchboxLoop_success_iff front DenseSet.empty 0
  have hf := shimSwitchboxLoop_failure_iff front DenseSet.empty 0
  have hlegal : ∀ op ∈ front, (∃ s d, op = .connect s d) ∨ op = .endOp := by
    intro op hop
    have := hkind op hop
    cases op <;> simp_all [Op.isConnectOrEnd]
  have hshim : (shimSwitchboxLoop DenseSet.empty 0 front).1 = .failure
      ↔ ¬ (front.filterMap Op.connectDest).Nodup := by
    rw [hf, hs]
    simp only [DenseSet.not_mem_empty, not_false_eq_true, implies_true, and_true]
    constructor
    · intro hn hnd; exact hn ⟨hlegal, hnd⟩
    · intro hn hp; exact hn hp.2
  simp only [verifySwitchboxOp, verifyShimSwitchboxOp, Outcome.verdict, Outcome.diags,
    Option.some.injEq]
  refine ⟨h.1, ?_, hshim, h.2.symm⟩
  rw [h.1]
  exact hshim

/-- C20, at a body of two Connections to one port with indices out of range. -/
theorem C20_switchbox_shim_witness :
    (verifySwitchboxOp [[.connect (.South, 7) (.ME, 5), .connect (.DMA, 0) (.ME, 5),
        .endOp]]).verdict
      = (verifyShimSwitchboxOp [[.connect (.South, 7) (.ME, 5), .connect (.DMA, 0) (.ME, 5),
        .endOp]]).verdict ∧
    ((verifySwitchboxOp [[.connect (.South, 7) (.ME, 5), .connect (.DMA, 0) (.ME, 5),
        .endOp]]).verdict = some .failure ↔
      ¬ (([.connect (.South, 7) (.ME, 5), .connect (.DMA, 0) (.ME, 5),
        .endOp] : List Op).filterMap Op.connectDest).Nodup) ∧
    ((verifyShimSwitchboxOp [[.connect (.South, 7) (.ME, 5), .connect (.DMA, 0) (.ME, 5),
        .endOp]]).verdict = some .failure ↔
      ¬ (([.connect (.South, 7) (.ME, 5), .connect (.DMA, 0) (.ME, 5),
        .endOp] : List Op).filterMap Op.connectDest).Nodup) ∧
    (verifyShimSwitchboxOp [[.connect (.South, 7) (.ME, 5), .connect (.DMA, 0) (.ME, 5),
        .endOp]]).diags
      = (verifySwitchboxOp [[.connect (.South, 7) (.ME, 5), .connect (.DMA, 0) (.ME, 5),
        .endOp]]).diags.filter (fun d => !d.msg.isRange) :=
  C20_switchbox_shim_same_verdict
    [.connect (.South, 7) (.ME, 5), .connect (.DMA, 0) (.ME, 5), .endOp] [] (by decide)

/-! ## Switchbox: AMSel and end-marker entries -/

/-- The loop of `verify(SwitchboxOp)` passes an `amsel` or an `endOp` with the two
sets as they are. -/
theorem switchboxLoop_cons_neutral (op : Op) (rest : List Op)
    (sourceset destset : DenseSet) (k : Nat) (hn : op.isAMSelOrEnd = true) :
    switchboxLoop sourceset destset k (op :: rest)
      = switchboxLoop sourceset destset (k + 1) rest := by
  cases op <;> simp [Op.isAMSelOrEnd] at hn <;> simp [switchboxLoop]

/-- Every diagnostic of the loop of `verify(SwitchboxOp)` is on an entry at or
after the first position. -/
theorem switchboxLoop_loc (body : List Op) :
    ∀ (sourceset destset : DenseSet) (k : Nat) (d : Diag),
      d ∈ (switchboxLoop sourceset destset k body).2 → ∃ j, k ≤ j ∧ d.loc = .entry j := by
  induction body with
  | nil => intro _ _ _ d h; simp [switchboxLoop] at h
  | cons op rest ih =>
    intro ss ds k d h
    rw [switchboxLoop_cons] at h
    cases hf : entryFails ss ds op with
    | some m =>
      rw [hf] at h
      simp only [List.mem_singleton] at h
      exact ⟨k, le_refl k, by rw [h]⟩
    | none =>
      rw [hf] at h
      simp only [emitThen_snd, List.mem_append] at h
      rcases h with h | h
      · exact ⟨k, le_refl k, entryDiags_loc k op d h⟩
      · obtain ⟨j, hj, hloc⟩ := ih _ _ _ d h
        exact ⟨j, by omega, hloc⟩

/-- The rank of the first position is zero. -/
theorem rankIn_zero (body : List Op) : rankIn body 0 = 0 := by
  simp [rankIn, withoutAMSelAndEnd]

/-- The rank of a position after the first entry. -/
theorem rankIn_cons_succ (op : Op) (rest : List Op) (j : Nat) :
    rankIn (op :: rest) (j + 1)
      = (if op.isAMSelOrEnd = true then 0 else 1) + rankIn rest j := by
  by_cases hn : op.isAMSelOrEnd = true
  · simp [rankIn, withoutAMSelAndEnd, List.filter_cons, hn]
  · simp [rankIn, withoutAMSelAndEnd, List.filter_cons, hn, Nat.add_comm]

/-- The diagnostics emitted at an entry, moved to another position. -/
theorem entryDiags_relocate (f : Nat → Nat) (k : Nat) (op : Op) :
    (entryDiags k op).map (Diag.relocate f) = entryDiags (f k) op := by
  have hemit : ∀ (c : Bool) (m : Msg),
      (emitIf c ⟨.entry k, m⟩).map (Diag.relocate f) = emitIf c ⟨.entry (f k), m⟩ := by
    intro c m
    cases c <;> simp [emitIf, Diag.relocate]
  cases op with
  | connect source dest =>
    simp only [entryDiags, List.map_append, hemit]
  | masterset dest amsels =>
    have harb : (arbiterLoop k (-1) amsels).map (Diag.relocate f)
        = arbiterLoop (f k) (-1) amsels := by
      rw [arbiterLoop_eq_replicate, arbiterLoop_eq_replicate, List.map_replicate]
      rfl
    simp only [entryDiags, List.map_append, hemit, harb]
  | _ => rfl

/-- The loop of `verify(SwitchboxOp)` on the body without its `amsel` and `endOp`
entries: the same verdict, and the same diagnostics at the new positions of
their entries. -/
theorem switchboxLoop_withoutAMSelAndEnd (body : List Op) :
    ∀ (sourceset destset : DenseSet) (k m : Nat),
      (switchboxLoop sourceset destset m (withoutAMSelAndEnd body)).1
        = (switchboxLoop sourceset destset k body).1 ∧
      (switchboxLoop sourceset destset m (withoutAMSelAndEnd body)).2
        = (switchboxLoop sourceset destset k body).2.map
            (Diag.relocate (fun i => m + rankIn body (i - k))) := by
  induction body with
  | nil => intro _ _ _ _; exact ⟨rfl, rfl⟩
  | cons op rest ih =>
    intro ss ds k m
    by_cases hn : op.isAMSelOrEnd = true
    · have hfilt : withoutAMSelAndEnd (op :: rest) = withoutAMSelAndEnd rest := by
        simp [withoutAMSelAndEnd, List.filter_cons, hn]
      rw [switchboxLoop_cons_neutral op rest ss ds k hn, hfilt]
      obtain ⟨h1, h2⟩ := ih ss ds (k + 1) m
      refine ⟨h1, ?_⟩
      rw [h2]
      apply List.map_congr_left
      intro d hd
      obtain ⟨j, hj, hloc⟩ := switchboxLoop_loc rest ss ds (k + 1) d hd
      have hidx : j - k = (j - (k + 1)) + 1 := by omega
      simp only [Diag.relocate, hloc, hidx, rankIn_cons_succ, hn, if_true, Nat.zero_add]
    · have hfilt : withoutAMSelAndEnd (op :: rest) = op :: withoutAMSelAndEnd rest := by
        simp [withoutAMSelAndEnd, List.filter_cons, hn]
      rw [hfilt, switchboxLoop_cons op (withoutAMSelAndEnd rest), switchboxLoop_cons op rest]
      cases hf : entryFails ss ds op with
      | some msg =>
        simp [Diag.relocate, rankIn_zero]
      | none =>
        obtain ⟨h1, h2⟩ := ih (nextSources ss op) (nextDests ds op) (k + 1) (m + 1)
        refine ⟨by simpa using h1, ?_⟩
        simp only [emitThen_snd, List.map_append, h2, entryDiags_relocate, Nat.sub_self,
          rankIn_zero, Nat.add_zero]
        congr 1
        apply List.map_congr_left
        intro d hd
        obtain ⟨j, hj, hloc⟩ := switchboxLoop_loc rest _ _ (k + 1) d hd
        have hidx : j - k = (j - (k + 1)) + 1 := by omega
        have hrank : rankIn (op :: rest) (j - (k + 1) + 1)
            = 1 + rankIn rest (j - (k + 1)) := by
          rw [rankIn_cons_succ, if_neg hn]
        simp only [Diag.relocate, hloc, hidx, hrank]
        congr 2
        omega

/-- C14: the Switchbox verifier passes an AMSel or an end marker with the sets of
used sources and used destinations as they are; the body without its AMSel and
end-marker entries gets the same verdict and the same diagnostics, each on the
same other entry at its new position; hence two bodies that differ only by AMSel
and end-marker entries, wherever they stand, get the same verdict and the same
diagnostics on their other entries. -/
theorem C14_amsel_and_end_neutral :
    (∀ (op : Op) (tail : List Op) (sourceset destset : DenseSet) (k : Nat),
      op.isAMSelOrEnd = true →
      switchboxLoop sourceset destset k (op :: tail)
        = switchboxLoop sourceset destset (k + 1) tail) ∧
    (∀ (front : Block) (rest : List Block),
      (verifySwitchboxOp (withoutAMSelAndEnd front :: rest)).verdict
        = (verifySwitchboxOp (front :: rest)).verdict ∧
      (verifySwitchboxOp (withoutAMSelAndEnd front :: rest)).diags
        = (verifySwitchboxOp (front :: rest)).diags.map (Diag.relocate (rankIn front))) ∧
    (∀ (front front2 : Block) (rest rest2 : List Block),
      withoutAMSelAndEnd front = withoutAMSelAndEnd front2 →
      (verifySwitchboxOp (front :: rest)).verdict
        = (verifySwitchboxOp (front2 :: rest2)).verdict ∧
      (verifySwitchboxOp (front :: rest)).diags.map (Diag.relocate (rankIn front))
        = (verifySwitchboxOp (front2 :: rest2)).diags.map
            (Diag.relocate (rankIn front2))) := by
  have key : ∀ (front : Block) (rest rest2 : List Block),
      (verifySwitchboxOp (withoutAMSelAndEnd front :: rest2)).verdict
        = (verifySwitchboxOp (front :: rest)).verdict ∧
      (verifySwitchboxOp (withoutAMSelAndEnd front :: rest2)).diags
        = (verifySwitchboxOp (front :: rest)).diags.map (Diag.relocate (rankIn front)) := by
    intro front rest rest2
    obtain ⟨h1, h2⟩ :=
      switchboxLoop_withoutAMSelAndEnd front DenseSet.empty DenseSet.empty 0 0
    simp only [Nat.zero_add, Nat.sub_zero] at h2
    exact ⟨by simp only [verifySwitchboxOp_verdict, h1],
      by simp only [verifySwitchboxOp_diags, h2]⟩
  refine ⟨switchboxLoop_cons_neutral, fun front rest => key front rest rest, ?_⟩
  intro front front2 rest rest2 h
  obtain ⟨a1, a2⟩ := key front rest []
  obtain ⟨b1, b2⟩ := key front2 rest2 []
  rw [h] at a1 a2
  exact ⟨a1.symm.trans b1, a2.symm.trans b2⟩

/-- C14, at an entry AMSel in front of a body, and at two bodies with the same
Connection, MasterSet and PacketRule and different AMSel and end-marker
entries. -/
theorem C14_amsel_and_end_witness :
    switchboxLoop [(.DMA, 0)] [(.North, 0)] 3 (.amsel 0 0 :: [.connect (.DMA, 0) (.North, 0)])
      = switchboxLoop [(.DMA, 0)] [(.North, 0)] (3 + 1) [.connect (.DMA, 0) (.North, 0)] ∧
    ((verifySwitchboxOp [[.amsel 0 0, .connect (.South, 7) (.ME, 0), .amsel 1 0,
        .masterset (.West, 3) [0, 1], .packetRules (.South, 7), .endOp]]).verdict
      = (verifySwitchboxOp [[.connect (.South, 7) (.ME, 0), .endOp,
        .masterset (.West, 3) [0, 1], .amsel 5 5, .amsel 6 6, .packetRules (.South, 7)],
        [.endOp]]).verdict ∧
    (verifySwitchboxOp [[.amsel 0 0, .connect (.South, 7) (.ME, 0), .amsel 1 0,
        .masterset (.West, 3) [0, 1], .packetRules (.South, 7), .endOp]]).diags.map
        (Diag.relocate (rankIn [.amsel 0 0, .connect (.South, 7) (.ME, 0), .amsel 1 0,
          .masterset (.West, 3) [0, 1], .packetRules (.South, 7), .endOp]))
      = (verifySwitchboxOp [[.connect (.South, 7) (.ME, 0), .endOp,
        .masterset (.West, 3) [0, 1], .amsel 5 5, .amsel 6 6, .packetRules (.South, 7)],
        [.endOp]]).diags.map
        (Diag.relocate (rankIn [.connect (.South, 7) (.ME, 0), .endOp,
          .masterset (.West, 3) [0, 1], .amsel 5 5, .amsel 6 6,
          .packetRules (.South, 7)]))) :=
  ⟨C14_amsel_and_end_neutral.1 _ _ _ _ 3 rfl,
    C14_amsel_and_end_neutral.2.2 _ _ _ _ (by decide)⟩

end AIE
